import Mathlib

/-!
Verification development for the pasture-algorithms core: RANSAC plane and
line segmentation (`src/pasture-algorithms/src/segmentation.rs`) and
euclidean cluster extraction
(`src/pasture-algorithms/src/cluster_extraction.rs`).

Modelling conventions:

* 3D positions and model coefficients are exact rationals (`ℚ`): the f64
  arithmetic of the source is modelled without rounding.  The two places
  where an f64 value can become non-finite in the source — `sqrt` followed
  by a division in `distance_point_plane`, and the `norm`-quotient in
  `distance_point_line` — are modelled by the type `F` below, which keeps
  the IEEE-754 special cases that the source relies on: a division
  `0 / 0` produces `nan`, `d / 0` with `d > 0` produces `+∞`, and any
  strict comparison `nan < t` or `+∞ < t` is false.
* `sqrt` (`ratSqrt`) is exact on rationals whose scaled numerator is a
  perfect square (in particular `ratSqrt 0 = 0` and `ratSqrt 1 = 1`) and a
  floor approximation otherwise; no theorem below depends on its value at
  a non-perfect square, because the inlier predicate of the algorithm and
  of the specification are the same function.
* The random index sampling of the source (`rand::thread_rng` with
  rejection loops) is modelled at two levels.  The selection and scoring
  functions receive, as the specification's design notes direct, the drawn
  index tuples as an injected list, one per iteration
  (`num_of_iterations = samples.length`).  The sampling loops themselves —
  `gen_range` (which panics on an empty range) and the distinct-index
  rejection loops (which never exit on an undersized buffer) — are
  modelled separately by `ransac_plane_serial_rng` / `ransac_line_serial_rng`
  over an injected raw-draw stream with a fuel bound on redraws;
  a refinement theorem shows every completing run of that model computes
  the sample-list model on the samples it drew.
* `rayon`'s `max_by` reduction is modelled by `maxByLast`, which matches
  the documented Rust semantics: among elements comparing equal, the last
  one is returned; on an empty iterator it returns `none` (the source then
  panics on `unwrap`, modelled as `Option.none`).
-/

/-- Model of the f64 values produced by the distance computations: a finite
value (exact rational), positive infinity, or `nan`. -/
inductive F where
  | fin (q : ℚ)
  | posInf
  | nan
deriving DecidableEq

/-- Strict IEEE-754 comparison of a distance against a finite threshold:
`nan` and `+∞` compare false against every threshold. -/
def flt : F → ℚ → Bool
  | F.fin q, t => decide (q < t)
  | F.posInf, _ => false
  | F.nan, _ => false

/-- Floor square root on naturals, by linear scan (kernel-reducible). -/
def natSqrtFloor (n : ℕ) : ℕ :=
  ((List.range (n + 1)).filter (fun k => decide (k * k ≤ n))).length - 1

/-- Model of f64 `sqrt` on the nonnegative rationals produced by the
norm computations: exact whenever `q.num * q.den` is a perfect square
(so `ratSqrt 0 = 0`), floor approximation otherwise. -/
def ratSqrt (q : ℚ) : ℚ :=
  if q ≤ 0 then 0
  else (natSqrtFloor (q.num.toNat * q.den) : ℚ) / (q.den : ℚ)

/-- IEEE-754 division of two finite nonnegative values: `0 / 0 = nan`,
`d / 0 = +∞` for `d ≠ 0`, exact quotient otherwise. -/
def fdivQ (d e : ℚ) : F :=
  if e = 0 then (if d = 0 then F.nan else F.posInf) else F.fin (d / e)

/-- A 3D position (`nalgebra::Vector3<f64>`), coordinates modelled exactly. -/
structure Vec3 where
  x : ℚ
  y : ℚ
  z : ℚ
deriving DecidableEq

/-- Componentwise vector subtraction. -/
def vsub (a b : Vec3) : Vec3 :=
  ⟨a.x - b.x, a.y - b.y, a.z - b.z⟩

/-- Cross product, as `nalgebra`'s `Vector3::cross`. -/
def cross (a b : Vec3) : Vec3 :=
  ⟨a.y * b.z - a.z * b.y, a.z * b.x - a.x * b.z, a.x * b.y - a.y * b.x⟩

/-- Dot product. -/
def dot (a b : Vec3) : ℚ :=
  a.x * b.x + a.y * b.y + a.z * b.z

/-- Squared euclidean norm of a vector. -/
def normSq (v : Vec3) : ℚ :=
  v.x * v.x + v.y * v.y + v.z * v.z

/-- Euclidean norm (`nalgebra`'s `.norm()`), via the modelled `sqrt`. -/
def normQ (v : Vec3) : ℚ :=
  ratSqrt (normSq v)

/-- A plane `ax + by + cz + d = 0` with its inlier count, as `struct Plane`
in `segmentation.rs`. -/
structure Plane where
  a : ℚ
  b : ℚ
  c : ℚ
  d : ℚ
  ranking : ℕ
deriving DecidableEq

/-- A line through two points with its inlier count, as `struct Line`
in `segmentation.rs`. -/
structure Line where
  first : Vec3
  second : Vec3
  ranking : ℕ
deriving DecidableEq

/-- Distance between a point and a plane, as `distance_point_plane`:
`|a·x + b·y + c·z + d| / sqrt(a² + b² + c²)`.  The division is the place
where a zero normal produces `nan` (numerator 0) — the source has no
special-case branch, and neither does this model. -/
def distance_point_plane (point : Vec3) (plane : Plane) : F :=
  let d := |plane.a * point.x + plane.b * point.y + plane.c * point.z + plane.d|
  let e := ratSqrt (plane.a * plane.a + plane.b * plane.b + plane.c * plane.c)
  fdivQ d e

/-- Distance between a point and a line, as `distance_point_line`:
`|cross(second - first, first - point)| / |second - first|`. -/
def distance_point_line (point : Vec3) (line : Line) : F :=
  fdivQ (normQ (cross (vsub line.second line.first) (vsub line.first point)))
    (normQ (vsub line.second line.first))

/-- The plane hypothesis built from one sampled triple: normal is the cross
product of two edge vectors, `d = -normal · p_a`, initial ranking 0
(lines 114-125 / 181-192 of `segmentation.rs`). -/
def plane_from_sample (pa pb pc : Vec3) : Plane :=
  let vec1 := vsub pb pa
  let vec2 := vsub pc pa
  let normal := cross vec1 vec2
  { a := normal.x, b := normal.y, c := normal.z, d := -(dot normal pa), ranking := 0 }

/-- The line hypothesis built from one sampled pair (initial ranking 0). -/
def line_from_sample (pa pb : Vec3) : Line :=
  { first := pa, second := pb, ranking := 0 }

/-- The scoring loop of one plane iteration: walk the buffer in index order
and, for every point whose distance to the hypothesis is strictly below the
threshold, increment the ranking and record the index. -/
def scorePlane (buffer : List Vec3) (distance_threshold : ℚ) (hypo : Plane) :
    Plane × List ℕ :=
  buffer.enum.foldl
    (fun acc ip =>
      if flt (distance_point_plane ip.2 acc.1) distance_threshold then
        ({ acc.1 with ranking := acc.1.ranking + 1 }, acc.2 ++ [ip.1])
      else acc)
    (hypo, [])

/-- The scoring loop of one line iteration. -/
def scoreLine (buffer : List Vec3) (distance_threshold : ℚ) (hypo : Line) :
    Line × List ℕ :=
  buffer.enum.foldl
    (fun acc ip =>
      if flt (distance_point_line ip.2 acc.1) distance_threshold then
        ({ acc.1 with ranking := acc.1.ranking + 1 }, acc.2 ++ [ip.1])
      else acc)
    (hypo, [])

/-- Position lookup, `buffer.get_attribute(&POSITION_3D, i)`; the sampling
loop of the source only produces in-range indices. -/
def positionAt (buffer : List Vec3) (i : ℕ) : Vec3 :=
  buffer.getD i ⟨0, 0, 0⟩

/-- One full iteration of the plane fitter, given its drawn index triple:
build the hypothesis from the three sampled positions and score it. -/
def plane_iteration (buffer : List Vec3) (distance_threshold : ℚ)
    (s : ℕ × ℕ × ℕ) : Plane × List ℕ :=
  scorePlane buffer distance_threshold
    (plane_from_sample (positionAt buffer s.1) (positionAt buffer s.2.1)
      (positionAt buffer s.2.2))

/-- One full iteration of the line fitter, given its drawn index pair. -/
def line_iteration (buffer : List Vec3) (distance_threshold : ℚ)
    (s : ℕ × ℕ) : Line × List ℕ :=
  scoreLine buffer distance_threshold
    (line_from_sample (positionAt buffer s.1) (positionAt buffer s.2))

/-- The initial `best_fit` of `ransac_plane_serial`: all coefficients 0,
ranking 0. -/
def zeroPlane : Plane := ⟨0, 0, 0, 0, 0⟩

/-- The initial `best_fit` of `ransac_line_serial`: both points at the
origin, ranking 0. -/
def zeroLine : Line := ⟨⟨0, 0, 0⟩, ⟨0, 0, 0⟩, 0⟩

/-- Serial plane RANSAC: fold the iterations, keeping the current result
only when its ranking is strictly greater than the best so far
(`if curr_hypo.ranking > best_fit.ranking`). -/
def ransac_plane_serial (buffer : List Vec3) (distance_threshold : ℚ)
    (samples : List (ℕ × ℕ × ℕ)) : Plane × List ℕ :=
  samples.foldl
    (fun best s =>
      let cur := plane_iteration buffer distance_threshold s
      if cur.1.ranking > best.1.ranking then cur else best)
    (zeroPlane, [])

/-- Serial line RANSAC. -/
def ransac_line_serial (buffer : List Vec3) (distance_threshold : ℚ)
    (samples : List (ℕ × ℕ)) : Line × List ℕ :=
  samples.foldl
    (fun best s =>
      let cur := line_iteration buffer distance_threshold s
      if cur.1.ranking > best.1.ranking then cur else best)
    (zeroLine, [])

/-- Rust's `Iterator::max_by` / rayon's `ParallelIterator::max_by`: among
elements comparing equal, the LAST one is returned; `none` on an empty
sequence (on which the source then panics via `unwrap`). -/
def maxByLast {α : Type} (rank : α → ℕ) : List α → Option α
  | [] => none
  | x :: xs => some (xs.foldl (fun acc y => if rank acc > rank y then acc else y) x)

/-- Parallel plane RANSAC: map every iteration to its hypothesis and reduce
with `max_by` on the ranking; `none` models the `unwrap` panic on zero
iterations. -/
def ransac_plane_par (buffer : List Vec3) (distance_threshold : ℚ)
    (samples : List (ℕ × ℕ × ℕ)) : Option (Plane × List ℕ) :=
  maxByLast (fun pr => pr.1.ranking)
    (samples.map (plane_iteration buffer distance_threshold))

/-- Parallel line RANSAC. -/
def ransac_line_par (buffer : List Vec3) (distance_threshold : ℚ)
    (samples : List (ℕ × ℕ)) : Option (Line × List ℕ) :=
  maxByLast (fun pr => pr.1.ranking)
    (samples.map (line_iteration buffer distance_threshold))

/-- Public entry point `ransac_plane`: dispatch on the `parallel` flag. -/
def ransac_plane (buffer : List Vec3) (distance_threshold : ℚ)
    (samples : List (ℕ × ℕ × ℕ)) (parallel : Bool) : Option (Plane × List ℕ) :=
  if parallel then ransac_plane_par buffer distance_threshold samples
  else some (ransac_plane_serial buffer distance_threshold samples)

/-- Public entry point `ransac_line`. -/
def ransac_line (buffer : List Vec3) (distance_threshold : ℚ)
    (samples : List (ℕ × ℕ)) (parallel : Bool) : Option (Line × List ℕ) :=
  if parallel then ransac_line_par buffer distance_threshold samples
  else some (ransac_line_serial buffer distance_threshold samples)

/-! ## The sampling loops themselves (`rand::thread_rng` layer)

The functions above receive the drawn index tuples; the definitions below
model the drawing itself, faithful to `segmentation.rs` lines 166-176 and
278-284: `gen_range(0..len)` panics on an empty range, and the
`while rand1 == rand2` / `while rand2 == rand3 || rand1 == rand3`
rejection loops redraw until the indices are pairwise distinct — which on
a buffer smaller than the sample size never happens.  The raw draws are an
injected stream `rng`; `none` models a `gen_range` panic or a rejection
loop that has not exited within the fuel bound (for undersized buffers this
is proved below for every fuel, i.e. the loop never exits). -/

/-- `rng.gen_range(0..len)` at stream cursor `k`: panics (`none`) when the
range is empty, as the rand crate does, otherwise a value in `[0, len)`. -/
def gen_range (len : ℕ) (rng : ℕ → ℕ) (k : ℕ) : Option ℕ :=
  if len = 0 then none else some (rng k % len)

/-- A `let mut r = gen_range(..); while bad(r) { r = gen_range(..) }`
rejection loop: draw, and while the draw is bad redraw, the fuel bounding
the number of redraws.  Returns the accepted value and the next cursor. -/
def redrawLoop (len : ℕ) (rng : ℕ → ℕ) (bad : ℕ → Bool) : ℕ → ℕ → Option (ℕ × ℕ)
  | 0, k =>
    match gen_range len rng k with
    | none => none
    | some v => if bad v then none else some (v, k + 1)
  | fuel + 1, k =>
    match gen_range len rng k with
    | none => none
    | some v => if bad v then redrawLoop len rng bad fuel (k + 1) else some (v, k + 1)

/-- Drawing the three pairwise-distinct plane sample indices
(`segmentation.rs` lines 167-176). -/
def sample_plane_indices (len : ℕ) (rng : ℕ → ℕ) (fuel k : ℕ) :
    Option ((ℕ × ℕ × ℕ) × ℕ) :=
  match gen_range len rng k with
  | none => none
  | some rand1 =>
    match redrawLoop len rng (fun v => v == rand1) fuel (k + 1) with
    | none => none
    | some (rand2, k2) =>
      match redrawLoop len rng (fun v => v == rand2 || v == rand1) fuel k2 with
      | none => none
      | some (rand3, k3) => some ((rand1, rand2, rand3), k3)

/-- Drawing the two distinct line sample indices (lines 279-284). -/
def sample_line_indices (len : ℕ) (rng : ℕ → ℕ) (fuel k : ℕ) :
    Option ((ℕ × ℕ) × ℕ) :=
  match gen_range len rng k with
  | none => none
  | some rand1 =>
    match redrawLoop len rng (fun v => v == rand1) fuel (k + 1) with
    | none => none
    | some (rand2, k2) => some ((rand1, rand2), k2)

/-- The serial plane loop with the sampling performed inside each
iteration, exactly as in the source; `none` marks an execution that panics
in `gen_range` or never leaves a rejection loop. -/
def ransac_plane_serial_go (buffer : List Vec3) (thr : ℚ) (rng : ℕ → ℕ)
    (fuel : ℕ) : ℕ → ℕ → Plane × List ℕ → Option (Plane × List ℕ)
  | 0, _, best => some best
  | n + 1, k, best =>
    match sample_plane_indices buffer.length rng fuel k with
    | none => none
    | some (s, k2) =>
      let cur := plane_iteration buffer thr s
      ransac_plane_serial_go buffer thr rng fuel n k2
        (if cur.1.ranking > best.1.ranking then cur else best)

/-- `ransac_plane_serial` with its own sampling, from cursor 0 and the
initial zero model. -/
def ransac_plane_serial_rng (buffer : List Vec3) (thr : ℚ)
    (num_of_iterations : ℕ) (rng : ℕ → ℕ) (fuel : ℕ) : Option (Plane × List ℕ) :=
  ransac_plane_serial_go buffer thr rng fuel num_of_iterations 0 (zeroPlane, [])

/-- The serial line loop with its own sampling. -/
def ransac_line_serial_go (buffer : List Vec3) (thr : ℚ) (rng : ℕ → ℕ)
    (fuel : ℕ) : ℕ → ℕ → Line × List ℕ → Option (Line × List ℕ)
  | 0, _, best => some best
  | n + 1, k, best =>
    match sample_line_indices buffer.length rng fuel k with
    | none => none
    | some (s, k2) =>
      let cur := line_iteration buffer thr s
      ransac_line_serial_go buffer thr rng fuel n k2
        (if cur.1.ranking > best.1.ranking then cur else best)

/-- `ransac_line_serial` with its own sampling. -/
def ransac_line_serial_rng (buffer : List Vec3) (thr : ℚ)
    (num_of_iterations : ℕ) (rng : ℕ → ℕ) (fuel : ℕ) : Option (Line × List ℕ) :=
  ransac_line_serial_go buffer thr rng fuel num_of_iterations 0 (zeroLine, [])

/-- The sample tuples a successful plane run draws, one per iteration. -/
def sample_plane_list (len : ℕ) (rng : ℕ → ℕ) (fuel : ℕ) :
    ℕ → ℕ → Option (List (ℕ × ℕ × ℕ))
  | 0, _ => some []
  | n + 1, k =>
    match sample_plane_indices len rng fuel k with
    | none => none
    | some (s, k2) =>
      match sample_plane_list len rng fuel n k2 with
      | none => none
      | some rest => some (s :: rest)

/-- The sample pairs a successful line run draws, one per iteration. -/
def sample_line_list (len : ℕ) (rng : ℕ → ℕ) (fuel : ℕ) :
    ℕ → ℕ → Option (List (ℕ × ℕ))
  | 0, _ => some []
  | n + 1, k =>
    match sample_line_indices len rng fuel k with
    | none => none
    | some (s, k2) =>
      match sample_line_list len rng fuel n k2 with
      | none => none
      | some rest => some (s :: rest)

/-! ## Generic selection folds and their characterizations -/

/-- The serial selection fold in isolation: keep the current element only
when its rank is strictly greater than the best so far. -/
def selectBest {α : Type} (rank : α → ℕ) (init : α) (l : List α) : α :=
  l.foldl (fun best cur => if rank cur > rank best then cur else best) init

/-- What the serial selection returns: either the initial value (when no
element beats its rank) or the earliest element of maximum rank, that
maximum being strictly above the initial rank. -/
def FirstMaxSpec {α : Type} (rank : α → ℕ) (init : α) (l : List α) (r : α) : Prop :=
  (r = init ∧ ∀ h ∈ l, rank h ≤ rank init) ∨
  ∃ i : Fin l.length, r = l.get i ∧ rank init < rank r ∧
    (∀ j : Fin l.length, rank (l.get j) ≤ rank r) ∧
    ∀ j : Fin l.length, (j : ℕ) < (i : ℕ) → rank (l.get j) < rank r

/-- What Rust's `max_by` returns on a nonempty sequence: the latest element
of maximum rank. -/
def LastMaxSpec {α : Type} (rank : α → ℕ) (l : List α) (r : α) : Prop :=
  ∃ i : Fin l.length, r = l.get i ∧
    (∀ j : Fin l.length, rank (l.get j) ≤ rank r) ∧
    ∀ j : Fin l.length, (i : ℕ) < (j : ℕ) → rank (l.get j) < rank r

theorem selectBest_nil {α : Type} (rank : α → ℕ) (init : α) :
    selectBest rank init [] = init := rfl

theorem selectBest_cons {α : Type} (rank : α → ℕ) (init x : α) (xs : List α) :
    selectBest rank init (x :: xs)
      = selectBest rank (if rank x > rank init then x else init) xs := rfl

/-- The serial selection fold satisfies `FirstMaxSpec`. -/
theorem selectBest_spec {α : Type} (rank : α → ℕ) :
    ∀ (l : List α) (init : α), FirstMaxSpec rank init l (selectBest rank init l)
  | [], init => Or.inl ⟨rfl, by simp⟩
  | x :: xs, init => by
    rw [selectBest_cons]
    by_cases hx : rank x > rank init
    · rw [if_pos hx]
      rcases selectBest_spec rank xs x with ⟨req, hall⟩ | ⟨i, req, hgt, hmax, hfirst⟩
      · refine Or.inr ⟨⟨0, by simp⟩, req, ?_, ?_, ?_⟩
        · simpa [req] using hx
        · intro j
          refine Fin.cases ?_ ?_ j
          · simp [req]
          · intro k
            simpa [req] using hall (xs.get k) (xs.get_mem k k.isLt)
        · intro j
          refine Fin.cases ?_ ?_ j
          · intro hj
            exact absurd hj (by simp)
          · intro k hk
            exact absurd hk (by simp)
      · refine Or.inr ⟨i.succ, by simpa using req, lt_trans hx hgt, ?_, ?_⟩
        · intro j
          refine Fin.cases ?_ ?_ j
          · simpa using le_of_lt hgt
          · intro k
            simpa using hmax k
        · intro j
          refine Fin.cases ?_ ?_ j
          · intro _
            simpa using hgt
          · intro k hk
            simpa using hfirst k (by simpa using hk)
    · rw [if_neg hx]
      push_neg at hx
      rcases selectBest_spec rank xs init with ⟨req, hall⟩ | ⟨i, req, hgt, hmax, hfirst⟩
      · refine Or.inl ⟨req, ?_⟩
        intro h hmem
        rcases List.mem_cons.mp hmem with rfl | hmem
        · exact hx
        · exact hall h hmem
      · refine Or.inr ⟨i.succ, by simpa using req, hgt, ?_, ?_⟩
        · intro j
          refine Fin.cases ?_ ?_ j
          · simpa using le_trans hx (le_of_lt hgt)
          · intro k
            simpa using hmax k
        · intro j
          refine Fin.cases ?_ ?_ j
          · intro _
            simpa using lt_of_le_of_lt hx hgt
          · intro k hk
            simpa using hfirst k (by simpa using hk)

/-- The serial selection fold returns the initial value or a list element. -/
theorem selectBest_mem {α : Type} (rank : α → ℕ) :
    ∀ (l : List α) (init : α),
      selectBest rank init l = init ∨ selectBest rank init l ∈ l
  | [], _ => Or.inl rfl
  | x :: xs, init => by
    rw [selectBest_cons]
    rcases selectBest_mem rank xs (if rank x > rank init then x else init) with h | h
    · rw [h]
      by_cases hx : rank x > rank init
      · exact Or.inr (by simp [hx])
      · exact Or.inl (by simp [hx])
    · exact Or.inr (List.mem_cons_of_mem x h)

/-- Accumulator characterization of the `max_by` fold: the result is the
accumulator (strictly above every list element) or the latest list element
of maximum rank, with rank at least the accumulator's. -/
theorem maxByFold_spec {α : Type} (rank : α → ℕ) :
    ∀ (l : List α) (a : α),
      (l.foldl (fun acc y => if rank acc > rank y then acc else y) a = a ∧
        ∀ h ∈ l, rank h < rank a) ∨
      ∃ i : Fin l.length,
        l.foldl (fun acc y => if rank acc > rank y then acc else y) a = l.get i ∧
        rank a ≤ rank (l.foldl (fun acc y => if rank acc > rank y then acc else y) a) ∧
        (∀ j : Fin l.length,
          rank (l.get j) ≤ rank (l.foldl (fun acc y => if rank acc > rank y then acc else y) a)) ∧
        ∀ j : Fin l.length, (i : ℕ) < (j : ℕ) →
          rank (l.get j) < rank (l.foldl (fun acc y => if rank acc > rank y then acc else y) a)
  | [], a => Or.inl ⟨rfl, by simp⟩
  | x :: xs, a => by
    have hstep : (x :: xs).foldl (fun acc y => if rank acc > rank y then acc else y) a
        = xs.foldl (fun acc y => if rank acc > rank y then acc else y)
            (if rank a > rank x then a else x) := rfl
    by_cases hx : rank a > rank x
    · rw [hstep, if_pos hx]
      rcases maxByFold_spec rank xs a with ⟨req, hall⟩ | ⟨i, req, hge, hmax, hlast⟩
      · refine Or.inl ⟨req, ?_⟩
        intro h hmem
        rcases List.mem_cons.mp hmem with rfl | hmem
        · exact hx
        · exact hall h hmem
      · refine Or.inr ⟨i.succ, by simpa using req, hge, ?_, ?_⟩
        · intro j
          refine Fin.cases ?_ ?_ j
          · simpa using lt_of_lt_of_le hx hge |>.le
          · intro k
            simpa using hmax k
        · intro j
          refine Fin.cases ?_ ?_ j
          · intro hj
            exact absurd hj (by simp)
          · intro k hk
            simpa using hlast k (by simpa using hk)
    · rw [hstep, if_neg hx]
      push_neg at hx
      rcases maxByFold_spec rank xs x with ⟨req, hall⟩ | ⟨i, req, hge, hmax, hlast⟩
      · refine Or.inr ⟨⟨0, by simp⟩, req, ?_, ?_, ?_⟩
        · simpa [req] using hx
        · intro j
          refine Fin.cases ?_ ?_ j
          · simp [req]
          · intro k
            simpa [req] using le_of_lt (hall (xs.get k) (xs.get_mem k k.isLt))
        · intro j
          refine Fin.cases ?_ ?_ j
          · intro hj
            exact absurd hj (by simp)
          · intro k _
            simpa [req] using hall (xs.get k) (xs.get_mem k k.isLt)
      · refine Or.inr ⟨i.succ, by simpa using req, le_trans hx hge, ?_, ?_⟩
        · intro j
          refine Fin.cases ?_ ?_ j
          · simpa using hge
          · intro k
            simpa using hmax k
        · intro j
          refine Fin.cases ?_ ?_ j
          · intro hj
            exact absurd hj (by simp)
          · intro k hk
            simpa using hlast k (by simpa using hk)

/-- Rust `max_by` on a nonempty sequence returns the latest element of
maximum rank. -/
theorem maxByLast_spec {α : Type} (rank : α → ℕ) (l : List α) (r : α)
    (h : maxByLast rank l = some r) : LastMaxSpec rank l r := by
  match l with
  | [] => exact absurd h (by simp [maxByLast])
  | x :: xs =>
    have hr : r = xs.foldl (fun acc y => if rank acc > rank y then acc else y) x := by
      simpa [maxByLast] using h.symm
    rcases maxByFold_spec rank xs x with ⟨req, hall⟩ | ⟨i, req, hge, hmax, hlast⟩
    · refine ⟨⟨0, by simp⟩, by simp [hr, req], ?_, ?_⟩
      · intro j
        refine Fin.cases ?_ ?_ j
        · simp [hr, req]
        · intro k
          simpa [hr, req] using le_of_lt (hall (xs.get k) (xs.get_mem k k.isLt))
      · intro j
        refine Fin.cases ?_ ?_ j
        · intro hj
          exact absurd hj (by simp)
        · intro k _
          simpa [hr, req] using hall (xs.get k) (xs.get_mem k k.isLt)
    · refine ⟨i.succ, by simpa [hr] using req, ?_, ?_⟩
      · intro j
        refine Fin.cases ?_ ?_ j
        · simpa [hr] using hge
        · intro k
          simpa [hr] using hmax k
      · intro j
        refine Fin.cases ?_ ?_ j
        · intro hj
          exact absurd hj (by simp)
        · intro k hk
          simpa [hr] using hlast k (by simpa using hk)

/-- Rust `max_by` returns an element of the sequence. -/
theorem maxByLast_mem {α : Type} (rank : α → ℕ) (l : List α) (r : α)
    (h : maxByLast rank l = some r) : r ∈ l := by
  rcases maxByLast_spec rank l r h with ⟨i, req, _, _⟩
  exact req ▸ List.get_mem l i i.isLt

/-! ## Characterization of the scoring loops -/

/-- The body of both scoring loops, generically in the model type `M`:
on an inlier, bump the model's ranking and append the point index. -/
def scoreStep {M : Type} (test : M → Vec3 → Bool) (bump : M → M)
    (acc : M × List ℕ) (ip : ℕ × Vec3) : M × List ℕ :=
  if test acc.1 ip.2 then (bump acc.1, acc.2 ++ [ip.1]) else acc

/-- The scoring fold applies `bump` once per passing element and appends
exactly the indices of the passing elements, in order. -/
theorem scoreFold_eq {M : Type} (test : M → Vec3 → Bool) (bump : M → M)
    (htest : ∀ m p, test (bump m) p = test m p) :
    ∀ (l : List (ℕ × Vec3)) (m : M) (acc : List ℕ),
      l.foldl (scoreStep test bump) (m, acc)
        = (bump^[l.countP (fun ip => test m ip.2)] m,
           acc ++ (l.filter (fun ip => test m ip.2)).map Prod.fst)
  | [], m, acc => by simp
  | ip :: l, m, acc => by
    have hfun : (fun q : ℕ × Vec3 => test (bump m) q.2)
        = fun q : ℕ × Vec3 => test m q.2 := funext fun q => htest m q.2
    by_cases hc : test m ip.2
    · have hstep : scoreStep test bump (m, acc) ip = (bump m, acc ++ [ip.1]) := by
        simp [scoreStep, hc]
      rw [List.foldl_cons, hstep,
        scoreFold_eq test bump htest l (bump m) (acc ++ [ip.1]), hfun]
      simp only [List.countP_cons, hc, if_true, List.filter_cons, List.map_cons]
      rw [Function.iterate_succ_apply bump]
      simp
    · have hstep : scoreStep test bump (m, acc) ip = (m, acc) := by
        simp [scoreStep, hc]
      rw [List.foldl_cons, hstep, scoreFold_eq test bump htest l m acc]
      simp [List.countP_cons, List.filter_cons, hc]

/-- The plane distance reads only the coefficients, never the ranking. -/
theorem distance_point_plane_ranking (p : Vec3) (m : Plane) (r : ℕ) :
    distance_point_plane p { m with ranking := r } = distance_point_plane p m := rfl

/-- The line distance reads only the two points, never the ranking. -/
theorem distance_point_line_ranking (p : Vec3) (m : Line) (r : ℕ) :
    distance_point_line p { m with ranking := r } = distance_point_line p m := rfl

theorem iterate_bump_plane : ∀ (c : ℕ) (m : Plane),
    (fun h : Plane => { h with ranking := h.ranking + 1 })^[c] m
      = { m with ranking := m.ranking + c }
  | 0, m => by simp
  | c + 1, m => by
    rw [Function.iterate_succ_apply (fun h : Plane => { h with ranking := h.ranking + 1 }) c m]
    rw [iterate_bump_plane c]
    simp [Nat.add_assoc, Nat.add_comm 1 c]

theorem iterate_bump_line : ∀ (c : ℕ) (m : Line),
    (fun h : Line => { h with ranking := h.ranking + 1 })^[c] m
      = { m with ranking := m.ranking + c }
  | 0, m => by simp
  | c + 1, m => by
    rw [Function.iterate_succ_apply (fun h : Line => { h with ranking := h.ranking + 1 }) c m]
    rw [iterate_bump_line c]
    simp [Nat.add_assoc, Nat.add_comm 1 c]

theorem countP_enum_snd (f : Vec3 → Bool) (l : List Vec3) :
    l.enum.countP (fun ip => f ip.2) = l.countP f := by
  conv_rhs => rw [← List.enum_map_snd l, List.countP_map]
  rfl

/-- Closed form of the plane scoring loop: the final hypothesis is the
input one with the inlier count added to its ranking, and the returned
index list enumerates, in order, the buffer indices whose point passes the
strict distance test against the input hypothesis. -/
theorem scorePlane_eq (buffer : List Vec3) (thr : ℚ) (hypo : Plane) :
    scorePlane buffer thr hypo
      = ({ hypo with ranking :=
            hypo.ranking + buffer.countP (fun p => flt (distance_point_plane p hypo) thr) },
         (buffer.enum.filter
            (fun ip => flt (distance_point_plane ip.2 hypo) thr)).map Prod.fst) := by
  have hbridge : scorePlane buffer thr hypo
      = buffer.enum.foldl
          (scoreStep (fun h p => flt (distance_point_plane p h) thr)
            (fun h => { h with ranking := h.ranking + 1 }))
          (hypo, []) := rfl
  rw [hbridge, scoreFold_eq _ _ (fun m p => by rw [distance_point_plane_ranking])]
  rw [iterate_bump_plane,
    countP_enum_snd (fun p => flt (distance_point_plane p hypo) thr) buffer]
  simp

/-- Closed form of the line scoring loop. -/
theorem scoreLine_eq (buffer : List Vec3) (thr : ℚ) (hypo : Line) :
    scoreLine buffer thr hypo
      = ({ hypo with ranking :=
            hypo.ranking + buffer.countP (fun p => flt (distance_point_line p hypo) thr) },
         (buffer.enum.filter
            (fun ip => flt (distance_point_line ip.2 hypo) thr)).map Prod.fst) := by
  have hbridge : scoreLine buffer thr hypo
      = buffer.enum.foldl
          (scoreStep (fun h p => flt (distance_point_line p h) thr)
            (fun h => { h with ranking := h.ranking + 1 }))
          (hypo, []) := rfl
  rw [hbridge, scoreFold_eq _ _ (fun m p => by rw [distance_point_line_ranking])]
  rw [iterate_bump_line,
    countP_enum_snd (fun p => flt (distance_point_line p hypo) thr) buffer]
  simp

/-! ## Facts about the modelled float operations -/

theorem ratSqrt_nonneg (q : ℚ) : 0 ≤ ratSqrt q := by
  rw [ratSqrt]
  split
  · exact le_refl 0
  · positivity

theorem normQ_nonneg (v : Vec3) : 0 ≤ normQ v := ratSqrt_nonneg _

/-- ratSqrt of zero is zero, as IEEE `sqrt(0) = 0`. -/
theorem ratSqrt_zero : ratSqrt 0 = 0 := by
  rw [ratSqrt, if_pos (le_refl 0)]

/-- ratSqrt of one is one (1 is a perfect square, so the model is exact). -/
theorem ratSqrt_one : ratSqrt 1 = 1 := by
  rw [ratSqrt, if_neg (by norm_num)]
  norm_num
  decide

/-- A quotient of nonnegative finite values never compares strictly below a
non-positive threshold: it is `nan`, `+∞`, or a nonnegative finite value. -/
theorem flt_fdivQ_nonpos (d e thr : ℚ) (hd : 0 ≤ d) (he : 0 ≤ e) (ht : thr ≤ 0) :
    flt (fdivQ d e) thr = false := by
  rw [fdivQ]
  split
  · split
    · rfl
    · rfl
  · rename_i hne
    have hq : 0 ≤ d / e := div_nonneg hd he
    simp only [flt, decide_eq_false_iff_not]
    intro hlt
    exact absurd (lt_of_lt_of_le hlt ht) (not_lt.mpr hq)

/-- With a non-positive threshold no point ever passes the plane test. -/
theorem flt_distance_plane_nonpos (p : Vec3) (pl : Plane) (thr : ℚ) (ht : thr ≤ 0) :
    flt (distance_point_plane p pl) thr = false := by
  rw [distance_point_plane]
  exact flt_fdivQ_nonpos _ _ thr (abs_nonneg _) (ratSqrt_nonneg _) ht

/-- With a non-positive threshold no point ever passes the line test. -/
theorem flt_distance_line_nonpos (p : Vec3) (ln : Line) (thr : ℚ) (ht : thr ≤ 0) :
    flt (distance_point_line p ln) thr = false := by
  rw [distance_point_line]
  exact flt_fdivQ_nonpos _ _ thr (normQ_nonneg _) (normQ_nonneg _) ht

/-- The distance of any point to the all-zero plane is `nan`: the numerator
and the norm of the zero normal are both exactly 0, and `0 / 0 = nan`. -/
theorem distance_zeroPlane_nan (p : Vec3) :
    distance_point_plane p zeroPlane = F.nan := by
  rw [distance_point_plane]
  simp [zeroPlane, ratSqrt_zero, fdivQ]

/-- The distance of any point to the degenerate line with both points at
the origin is `nan`. -/
theorem distance_zeroLine_nan (p : Vec3) :
    distance_point_line p zeroLine = F.nan := by
  rw [distance_point_line]
  simp [zeroLine, vsub, cross, normQ, normSq, ratSqrt_zero, fdivQ]

/-- Comparison of `nan` against any threshold is false. -/
theorem flt_nan (thr : ℚ) : flt F.nan thr = false := rfl

/-! ## Derived facts about single iterations and the selection folds -/

/-- For a hypothesis entering the loop with ranking 0 (as every sampled
hypothesis does), the final ranking, the returned index count and the
number of buffer points passing the distance test coincide. -/
theorem scorePlane_count (buffer : List Vec3) (thr : ℚ) (hypo : Plane)
    (h0 : hypo.ranking = 0) :
    (scorePlane buffer thr hypo).1.ranking = (scorePlane buffer thr hypo).2.length ∧
    (scorePlane buffer thr hypo).2.length
      = buffer.countP
          (fun p => flt (distance_point_plane p (scorePlane buffer thr hypo).1) thr) := by
  rw [scorePlane_eq]
  simp only [distance_point_plane_ranking, List.length_map, h0, Nat.zero_add]
  constructor
  · rw [← List.countP_eq_length_filter,
      countP_enum_snd (fun p => flt (distance_point_plane p hypo) thr) buffer]
  · rw [← List.countP_eq_length_filter,
      countP_enum_snd (fun p => flt (distance_point_plane p hypo) thr) buffer]

theorem scoreLine_count (buffer : List Vec3) (thr : ℚ) (hypo : Line)
    (h0 : hypo.ranking = 0) :
    (scoreLine buffer thr hypo).1.ranking = (scoreLine buffer thr hypo).2.length ∧
    (scoreLine buffer thr hypo).2.length
      = buffer.countP
          (fun p => flt (distance_point_line p (scoreLine buffer thr hypo).1) thr) := by
  rw [scoreLine_eq]
  simp only [distance_point_line_ranking, List.length_map, h0, Nat.zero_add]
  constructor
  · rw [← List.countP_eq_length_filter,
      countP_enum_snd (fun p => flt (distance_point_line p hypo) thr) buffer]
  · rw [← List.countP_eq_length_filter,
      countP_enum_snd (fun p => flt (distance_point_line p hypo) thr) buffer]

/-- The index list of a scored hypothesis is strictly increasing, and each
index is a valid buffer index. -/
theorem scorePlane_indices (buffer : List Vec3) (thr : ℚ) (hypo : Plane) :
    List.Pairwise (· < ·) (scorePlane buffer thr hypo).2 ∧
    ∀ i ∈ (scorePlane buffer thr hypo).2, i < buffer.length := by
  rw [scorePlane_eq]
  have hsub : List.Sublist
      ((List.filter (fun ip => flt (distance_point_plane ip.2 hypo) thr)
        buffer.enum).map Prod.fst)
      (buffer.enum.map Prod.fst) :=
    List.Sublist.map Prod.fst (List.filter_sublist _)
  rw [List.enum_map_fst] at hsub
  constructor
  · exact List.Pairwise.sublist hsub (List.pairwise_lt_range _)
  · intro i hi
    exact List.mem_range.mp (hsub.subset hi)

theorem scoreLine_indices (buffer : List Vec3) (thr : ℚ) (hypo : Line) :
    List.Pairwise (· < ·) (scoreLine buffer thr hypo).2 ∧
    ∀ i ∈ (scoreLine buffer thr hypo).2, i < buffer.length := by
  rw [scoreLine_eq]
  have hsub : List.Sublist
      ((List.filter (fun ip => flt (distance_point_line ip.2 hypo) thr)
        buffer.enum).map Prod.fst)
      (buffer.enum.map Prod.fst) :=
    List.Sublist.map Prod.fst (List.filter_sublist _)
  rw [List.enum_map_fst] at hsub
  constructor
  · exact List.Pairwise.sublist hsub (List.pairwise_lt_range _)
  · intro i hi
    exact List.mem_range.mp (hsub.subset hi)

/-- No point of any buffer passes the distance test against the all-zero
plane: every distance is `nan`. -/
theorem countP_zeroPlane (buffer : List Vec3) (thr : ℚ) :
    buffer.countP (fun p => flt (distance_point_plane p zeroPlane) thr) = 0 := by
  rw [List.countP_eq_zero]
  intro p _
  rw [distance_zeroPlane_nan p, flt_nan]
  exact Bool.false_ne_true

theorem countP_zeroLine (buffer : List Vec3) (thr : ℚ) :
    buffer.countP (fun p => flt (distance_point_line p zeroLine) thr) = 0 := by
  rw [List.countP_eq_zero]
  intro p _
  rw [distance_zeroLine_nan p, flt_nan]
  exact Bool.false_ne_true

/-- The serial plane fold is the generic selection fold over the mapped
iteration results. -/
theorem ransac_plane_serial_eq (buffer : List Vec3) (thr : ℚ)
    (samples : List (ℕ × ℕ × ℕ)) :
    ransac_plane_serial buffer thr samples
      = selectBest (fun pr : Plane × List ℕ => pr.1.ranking) (zeroPlane, [])
          (samples.map (plane_iteration buffer thr)) := by
  rw [selectBest, List.foldl_map]
  rfl

theorem ransac_line_serial_eq (buffer : List Vec3) (thr : ℚ)
    (samples : List (ℕ × ℕ)) :
    ransac_line_serial buffer thr samples
      = selectBest (fun pr : Line × List ℕ => pr.1.ranking) (zeroLine, [])
          (samples.map (line_iteration buffer thr)) := by
  rw [selectBest, List.foldl_map]
  rfl

/-- The serial plane result is the initial pair or one iteration's result. -/
theorem ransac_plane_serial_cases (buffer : List Vec3) (thr : ℚ)
    (samples : List (ℕ × ℕ × ℕ)) :
    ransac_plane_serial buffer thr samples = (zeroPlane, []) ∨
    ransac_plane_serial buffer thr samples
      ∈ samples.map (plane_iteration buffer thr) := by
  rw [ransac_plane_serial_eq]
  exact selectBest_mem _ _ _

theorem ransac_line_serial_cases (buffer : List Vec3) (thr : ℚ)
    (samples : List (ℕ × ℕ)) :
    ransac_line_serial buffer thr samples = (zeroLine, []) ∨
    ransac_line_serial buffer thr samples
      ∈ samples.map (line_iteration buffer thr) := by
  rw [ransac_line_serial_eq]
  exact selectBest_mem _ _ _

/-! ## Euclidean cluster extraction (`cluster_extraction.rs`) -/

/-- A kd-tree item, `struct Item` in `data_structures/kdtree.rs`: three f64
coordinates, compared componentwise (`impl PartialEq for Item`). -/
structure Item where
  x : ℚ
  y : ℚ
  z : ℚ
deriving DecidableEq

/-- Squared euclidean distance between two items. -/
def distSq (a b : Item) : ℚ :=
  (a.x - b.x) * (a.x - b.x) + (a.y - b.y) * (a.y - b.y) + (a.z - b.z) * (a.z - b.z)

/-- Modelled from the spec: the `kd_tree` crate's `within_radius` query
(the crate's code is not part of this repository).  Per the specification's
spatial-index contract it returns the set of indexed points within the
given radius of the centre, always including the centre point itself; the
tree is modelled as the list of its items. -/
def within_radius (tree : List Item) (center : Item) (r : ℚ) : List Item :=
  tree.filter (fun p => decide (distSq p center ≤ r * r))

/-- The per-seed loop state of `extract_clusters_euclidean`: the growing
queue `q`, the raw visit log `processed`, and the cursor `counter`. -/
structure ClusterState where
  q : List Item
  processed : List Item
  counter : ℕ
deriving DecidableEq

/-- The body of the inner `for i in set` loop: append the neighbor to the
queue unless already present, and log it unconditionally. -/
def visitNeighbor (qp : List Item × List Item) (i : Item) : List Item × List Item :=
  (if qp.1.contains i then qp.1 else qp.1 ++ [i], qp.2 ++ [i])

/-- One round of the per-seed while loop: query the neighbors of the point
at the cursor, fold them through `visitNeighbor`, advance the cursor.  The
loop condition guarantees the cursor is in range when this runs. -/
def clusterStep (tree : List Item) (r : ℚ) (s : ClusterState) : ClusterState :=
  let set := within_radius tree (s.q.getD s.counter ⟨0, 0, 0⟩) r
  let qp := set.foldl visitNeighbor (s.q, s.processed)
  ⟨qp.1, qp.2, s.counter + 1⟩

/-- The per-seed while loop
`while processed.len() < tree.len() && counter < q.len()`, with an explicit
fuel counter; `none` marks fuel exhaustion, proved unreachable for fuel
`tree.length + 2` below. -/
def clusterLoop (tree : List Item) (r : ℚ) : ℕ → ClusterState → Option ClusterState
  | 0, s =>
    if s.processed.length < tree.length ∧ s.counter < s.q.length then none
    else some s
  | fuel + 1, s =>
    if s.processed.length < tree.length ∧ s.counter < s.q.length then
      clusterLoop tree r fuel (clusterStep tree r s)
    else some s

/-- The cluster grown from one seed: run the while loop from
`q = [seed], processed = [], counter = 0` and emit the final queue.  The
fallback branch is unreachable (`clusterLoop` always returns `some` at this
fuel). -/
def seedCluster (tree : List Item) (r : ℚ) (seed : Item) : List Item :=
  match clusterLoop tree r (tree.length + 2) ⟨[seed], [], 0⟩ with
  | some s => s.q
  | none => [seed]

/-- `extract_clusters_euclidean`: for every point of the tree, in iteration
order, grow its cluster with the hardcoded radius `15.0` and emit it. -/
def extract_clusters_euclidean (tree : List Item) : List (List Item) :=
  tree.foldl (fun c p => c ++ [seedCluster tree 15 p]) []

/-! ## Invariants of the cluster expansion loop -/

theorem mem_within_radius {tree : List Item} {c : Item} {r : ℚ} {p : Item} :
    p ∈ within_radius tree c r ↔ p ∈ tree ∧ distSq p c ≤ r * r := by
  simp [within_radius]

/-- The visit fold only appends to the queue, and appends only neighbors. -/
theorem visitFold_q_ext :
    ∀ (set q pr : List Item),
      ∃ ext, (set.foldl visitNeighbor (q, pr)).1 = q ++ ext ∧ ∀ x ∈ ext, x ∈ set
  | [], q, pr => ⟨[], by simp⟩
  | i :: set, q, pr => by
    by_cases hc : q.contains i
    · have hin : i ∈ q := by simpa using hc
      have hstep : visitNeighbor (q, pr) i = (q, pr ++ [i]) := by
        simp [visitNeighbor, hin]
      rcases visitFold_q_ext set q (pr ++ [i]) with ⟨ext, heq, hmem⟩
      exact ⟨ext, by rw [List.foldl_cons, hstep, heq], fun x hx =>
        List.mem_cons_of_mem i (hmem x hx)⟩
    · have hni : i ∉ q := by simpa using hc
      have hstep : visitNeighbor (q, pr) i = (q ++ [i], pr ++ [i]) := by
        simp [visitNeighbor, hni]
      rcases visitFold_q_ext set (q ++ [i]) (pr ++ [i]) with ⟨ext, heq, hmem⟩
      refine ⟨i :: ext, ?_, ?_⟩
      · rw [List.foldl_cons, hstep, heq]
        simp
      · intro x hx
        rcases List.mem_cons.mp hx with rfl | hx
        · exact List.mem_cons_self x set
        · exact List.mem_cons_of_mem i (hmem x hx)

/-- The visit fold preserves queue distinctness: a neighbor is appended
only when not already present. -/
theorem visitFold_nodup :
    ∀ (set q pr : List Item), q.Nodup → (set.foldl visitNeighbor (q, pr)).1.Nodup
  | [], q, pr, hq => hq
  | i :: set, q, pr, hq => by
    by_cases hc : q.contains i
    · have hin : i ∈ q := by simpa using hc
      have hstep : visitNeighbor (q, pr) i = (q, pr ++ [i]) := by
        simp [visitNeighbor, hin]
      rw [List.foldl_cons, hstep]
      exact visitFold_nodup set q (pr ++ [i]) hq
    · have hni : i ∉ q := by simpa using hc
      have hstep : visitNeighbor (q, pr) i = (q ++ [i], pr ++ [i]) := by
        simp [visitNeighbor, hni]
      rw [List.foldl_cons, hstep]
      refine visitFold_nodup set (q ++ [i]) (pr ++ [i]) ?_
      simp [List.nodup_append, hq, hni]

/-- One step only appends tree elements to the queue. -/
theorem clusterStep_q_ext (tree : List Item) (r : ℚ) (s : ClusterState) :
    ∃ ext, (clusterStep tree r s).q = s.q ++ ext ∧ ∀ x ∈ ext, x ∈ tree := by
  rcases visitFold_q_ext (within_radius tree (s.q.getD s.counter ⟨0, 0, 0⟩) r)
      s.q s.processed with ⟨ext, heq, hmem⟩
  exact ⟨ext, heq, fun x hx => (mem_within_radius.mp (hmem x hx)).1⟩

theorem clusterStep_nodup (tree : List Item) (r : ℚ) (s : ClusterState)
    (hq : s.q.Nodup) : (clusterStep tree r s).q.Nodup :=
  visitFold_nodup _ s.q s.processed hq

theorem clusterStep_counter (tree : List Item) (r : ℚ) (s : ClusterState) :
    (clusterStep tree r s).counter = s.counter + 1 := rfl

/-- When the loop exits normally, its condition is false at the final
state: the cursor has caught up with the queue or the visit log has
reached the tree size. -/
theorem clusterLoop_exit (tree : List Item) (r : ℚ) :
    ∀ (fuel : ℕ) (s s' : ClusterState), clusterLoop tree r fuel s = some s' →
      ¬(s'.processed.length < tree.length ∧ s'.counter < s'.q.length)
  | 0, s, s', h => by
    rw [clusterLoop] at h
    split at h
    · exact absurd h (by simp)
    · rename_i hcond
      obtain rfl : s = s' := by simpa using h
      exact hcond
  | fuel + 1, s, s', h => by
    rw [clusterLoop] at h
    split at h
    · exact clusterLoop_exit tree r fuel _ s' h
    · rename_i hcond
      obtain rfl : s = s' := by simpa using h
      exact hcond

/-- The loop only appends tree elements to the queue. -/
theorem clusterLoop_q_ext (tree : List Item) (r : ℚ) :
    ∀ (fuel : ℕ) (s s' : ClusterState), clusterLoop tree r fuel s = some s' →
      ∃ ext, s'.q = s.q ++ ext ∧ ∀ x ∈ ext, x ∈ tree
  | 0, s, s', h => by
    rw [clusterLoop] at h
    split at h
    · exact absurd h (by simp)
    · obtain rfl : s = s' := by simpa using h
      exact ⟨[], by simp⟩
  | fuel + 1, s, s', h => by
    rw [clusterLoop] at h
    split at h
    · rcases clusterLoop_q_ext tree r fuel _ s' h with ⟨ext2, heq2, hmem2⟩
      rcases clusterStep_q_ext tree r s with ⟨ext1, heq1, hmem1⟩
      refine ⟨ext1 ++ ext2, ?_, ?_⟩
      · rw [heq2, heq1, List.append_assoc]
      · intro x hx
        rcases List.mem_append.mp hx with hx | hx
        · exact hmem1 x hx
        · exact hmem2 x hx
    · obtain rfl : s = s' := by simpa using h
      exact ⟨[], by simp⟩

/-- The loop preserves queue distinctness. -/
theorem clusterLoop_nodup (tree : List Item) (r : ℚ) :
    ∀ (fuel : ℕ) (s s' : ClusterState), clusterLoop tree r fuel s = some s' →
      s.q.Nodup → s'.q.Nodup
  | 0, s, s', h, hq => by
    rw [clusterLoop] at h
    split at h
    · exact absurd h (by simp)
    · obtain rfl : s = s' := by simpa using h
      exact hq
  | fuel + 1, s, s', h, hq => by
    rw [clusterLoop] at h
    split at h
    · exact clusterLoop_nodup tree r fuel _ s' h (clusterStep_nodup tree r s hq)
    · obtain rfl : s = s' := by simpa using h
      exact hq

/-- One step preserves any predicate that is closed under moving within
the query radius from a point already satisfying it. -/
theorem clusterStep_pred (tree : List Item) (r : ℚ) (s : ClusterState)
    (Q : Item → Prop) (hcur : s.counter < s.q.length)
    (hclosed : ∀ center x, Q center → x ∈ tree → distSq x center ≤ r * r → Q x)
    (hq : ∀ x ∈ s.q, Q x) : ∀ x ∈ (clusterStep tree r s).q, Q x := by
  have hcenter : s.q.getD s.counter ⟨0, 0, 0⟩ ∈ s.q := by
    rw [List.getD_eq_getElem s.q _ hcur]
    exact List.getElem_mem hcur
  rcases visitFold_q_ext (within_radius tree (s.q.getD s.counter ⟨0, 0, 0⟩) r)
      s.q s.processed with ⟨ext, heq, hmem⟩
  have hstep : (clusterStep tree r s).q
      = ((within_radius tree (s.q.getD s.counter ⟨0, 0, 0⟩) r).foldl
          visitNeighbor (s.q, s.processed)).1 := rfl
  rw [hstep, heq]
  intro x hx
  rcases List.mem_append.mp hx with hx | hx
  · exact hq x hx
  · rcases mem_within_radius.mp (hmem x hx) with ⟨hxt, hxd⟩
    exact hclosed _ x (hq _ hcenter) hxt hxd

/-- The loop preserves any radius-closed predicate on the queue. -/
theorem clusterLoop_pred (tree : List Item) (r : ℚ) (Q : Item → Prop)
    (hclosed : ∀ center x, Q center → x ∈ tree → distSq x center ≤ r * r → Q x) :
    ∀ (fuel : ℕ) (s s' : ClusterState), clusterLoop tree r fuel s = some s' →
      (∀ x ∈ s.q, Q x) → ∀ x ∈ s'.q, Q x
  | 0, s, s', h, hq => by
    rw [clusterLoop] at h
    split at h
    · exact absurd h (by simp)
    · obtain rfl : s = s' := by simpa using h
      exact hq
  | fuel + 1, s, s', h, hq => by
    rw [clusterLoop] at h
    split at h
    · rename_i hcond
      exact clusterLoop_pred tree r Q hclosed fuel _ s' h
        (clusterStep_pred tree r s Q hcond.2 hclosed hq)
    · obtain rfl : s = s' := by simpa using h
      exact hq

/-- Termination: with any superset `U` of the tree items covering the
queue, fuel `U.length + 1 - counter` suffices, because the cursor strictly
increases each round while the distinct queue stays inside `U`. -/
theorem clusterLoop_isSome (tree : List Item) (r : ℚ) (U : List Item)
    (hU : ∀ x ∈ tree, x ∈ U) :
    ∀ (fuel : ℕ) (s : ClusterState), s.q.Nodup → (∀ x ∈ s.q, x ∈ U) →
      U.length + 1 ≤ s.counter + fuel →
      ∃ s', clusterLoop tree r fuel s = some s'
  | 0, s, hnd, hsub, hbound => by
    rw [clusterLoop]
    split
    · rename_i hcond
      exfalso
      have hlen : s.q.length ≤ U.length :=
        (List.subperm_of_subset hnd fun x hx => hsub x hx).length_le
      have hcur : s.counter < s.q.length := hcond.2
      omega
    · exact ⟨s, rfl⟩
  | fuel + 1, s, hnd, hsub, hbound => by
    rw [clusterLoop]
    split
    · rcases clusterStep_q_ext tree r s with ⟨ext, heq, hmem⟩
      refine clusterLoop_isSome tree r U hU fuel (clusterStep tree r s)
        (clusterStep_nodup tree r s hnd) ?_ ?_
      · rw [heq]
        intro x hx
        rcases List.mem_append.mp hx with hx | hx
        · exact hsub x hx
        · exact hU x (hmem x hx)
      · rw [clusterStep_counter]
        omega
    · exact ⟨s, rfl⟩

/-- The fuel used by `seedCluster` always suffices. -/
theorem clusterLoop_init_isSome (tree : List Item) (r : ℚ) (seed : Item) :
    ∃ s', clusterLoop tree r (tree.length + 2) ⟨[seed], [], 0⟩ = some s' := by
  refine clusterLoop_isSome tree r (seed :: tree)
    (fun x hx => List.mem_cons_of_mem seed hx) (tree.length + 2)
    ⟨[seed], [], 0⟩ (by simp) ?_ (by simp)
  intro x hx
  rcases List.mem_singleton.mp hx with rfl
  exact List.mem_cons_self x tree

/-- Every grown cluster is nonempty, headed by its seed, and duplicate
free. -/
theorem seedCluster_shape (tree : List Item) (r : ℚ) (seed : Item) :
    seedCluster tree r seed ≠ [] ∧
    (seedCluster tree r seed).head? = some seed ∧
    (seedCluster tree r seed).Nodup := by
  rcases clusterLoop_init_isSome tree r seed with ⟨s', hs⟩
  rcases clusterLoop_q_ext tree r (tree.length + 2) ⟨[seed], [], 0⟩ s' hs
    with ⟨ext, heq, -⟩
  have hnd : s'.q.Nodup :=
    clusterLoop_nodup tree r (tree.length + 2) ⟨[seed], [], 0⟩ s' hs (by simp)
  have hsc : seedCluster tree r seed = s'.q := by
    rw [seedCluster, hs]
  rw [hsc, heq]
  exact ⟨by simp, by simp, heq ▸ hnd⟩

/-- Every member of a grown cluster satisfies any radius-closed predicate
holding at the seed. -/
theorem seedCluster_pred (tree : List Item) (r : ℚ) (seed : Item)
    (Q : Item → Prop)
    (hclosed : ∀ center x, Q center → x ∈ tree → distSq x center ≤ r * r → Q x)
    (hseed : Q seed) : ∀ x ∈ seedCluster tree r seed, Q x := by
  rcases clusterLoop_init_isSome tree r seed with ⟨s', hs⟩
  have hsc : seedCluster tree r seed = s'.q := by
    rw [seedCluster, hs]
  rw [hsc]
  refine clusterLoop_pred tree r Q hclosed (tree.length + 2) ⟨[seed], [], 0⟩ s' hs ?_
  intro x hx
  rcases List.mem_singleton.mp hx with rfl
  exact hseed

theorem foldl_append_singleton {α β : Type} (f : α → β) :
    ∀ (l : List α) (acc : List β),
      l.foldl (fun c p => c ++ [f p]) acc = acc ++ l.map f
  | [], acc => by simp
  | x :: l, acc => by
    rw [List.foldl_cons, foldl_append_singleton f l]
    simp

/-- The extraction loop emits exactly the per-seed clusters, in tree
iteration order. -/
theorem extract_clusters_eq_map (tree : List Item) :
    extract_clusters_euclidean tree = tree.map (seedCluster tree 15) := by
  rw [extract_clusters_euclidean, foldl_append_singleton]
  simp

/-! ## Per-iteration corollaries -/

/-- Each plane iteration returns a pair whose ranking, inlier-list length
and recomputed inlier count agree. -/
theorem plane_iteration_count (buffer : List Vec3) (thr : ℚ) (s : ℕ × ℕ × ℕ) :
    (plane_iteration buffer thr s).1.ranking = (plane_iteration buffer thr s).2.length ∧
    (plane_iteration buffer thr s).2.length
      = buffer.countP
          (fun p => flt (distance_point_plane p (plane_iteration buffer thr s).1) thr) :=
  scorePlane_count buffer thr _ rfl

theorem line_iteration_count (buffer : List Vec3) (thr : ℚ) (s : ℕ × ℕ) :
    (line_iteration buffer thr s).1.ranking = (line_iteration buffer thr s).2.length ∧
    (line_iteration buffer thr s).2.length
      = buffer.countP
          (fun p => flt (distance_point_line p (line_iteration buffer thr s).1) thr) :=
  scoreLine_count buffer thr _ rfl

theorem plane_iteration_indices (buffer : List Vec3) (thr : ℚ) (s : ℕ × ℕ × ℕ) :
    List.Pairwise (· < ·) (plane_iteration buffer thr s).2 ∧
    ∀ i ∈ (plane_iteration buffer thr s).2, i < buffer.length :=
  scorePlane_indices buffer thr _

theorem line_iteration_indices (buffer : List Vec3) (thr : ℚ) (s : ℕ × ℕ) :
    List.Pairwise (· < ·) (line_iteration buffer thr s).2 ∧
    ∀ i ∈ (line_iteration buffer thr s).2, i < buffer.length :=
  scoreLine_indices buffer thr _

/-- With a non-positive threshold every plane iteration scores ranking 0. -/
theorem plane_iteration_rank_zero (buffer : List Vec3) (thr : ℚ) (ht : thr ≤ 0)
    (s : ℕ × ℕ × ℕ) : (plane_iteration buffer thr s).1.ranking = 0 := by
  rcases plane_iteration_count buffer thr s with ⟨h1, h2⟩
  rw [h1, h2, List.countP_eq_zero]
  intro p _
  rw [flt_distance_plane_nonpos p _ thr ht]
  exact Bool.false_ne_true

theorem line_iteration_rank_zero (buffer : List Vec3) (thr : ℚ) (ht : thr ≤ 0)
    (s : ℕ × ℕ) : (line_iteration buffer thr s).1.ranking = 0 := by
  rcases line_iteration_count buffer thr s with ⟨h1, h2⟩
  rw [h1, h2, List.countP_eq_zero]
  intro p _
  rw [flt_distance_line_nonpos p _ thr ht]
  exact Bool.false_ne_true

/-- The distance from any point to a line through two coincident positions
is `nan`: both the numerator and the denominator norms are exactly 0. -/
theorem distance_coincident_line_nan (q0 p : Vec3) :
    distance_point_line p (line_from_sample q0 q0) = F.nan := by
  simp [distance_point_line, line_from_sample, vsub, cross, normQ, normSq,
    ratSqrt_zero, fdivQ]

theorem distSq_comm (a b : Item) : distSq a b = distSq b a := by
  simp only [distSq]
  ring

/-! ## Behavior of the sampling loops -/

/-- A rejection loop whose every candidate is bad never exits, whatever
the fuel: the while condition holds after each redraw. -/
theorem redrawLoop_none (len : ℕ) (rng : ℕ → ℕ) (bad : ℕ → Bool)
    (hbad : ∀ v, v < len → bad v = true) :
    ∀ (fuel k : ℕ), redrawLoop len rng bad fuel k = none
  | 0, k => by
    rw [redrawLoop]
    rcases Nat.eq_zero_or_pos len with rfl | hpos
    · simp [gen_range]
    · have hv : rng k % len < len := Nat.mod_lt _ hpos
      simp [gen_range, Nat.pos_iff_ne_zero.mp hpos, hbad _ hv]
  | fuel + 1, k => by
    rw [redrawLoop]
    rcases Nat.eq_zero_or_pos len with rfl | hpos
    · simp [gen_range]
    · have hv : rng k % len < len := Nat.mod_lt _ hpos
      simp [gen_range, Nat.pos_iff_ne_zero.mp hpos, hbad _ hv,
        redrawLoop_none len rng bad hbad fuel (k + 1)]

/-- When a rejection loop exits, the accepted value is a good in-range
draw. -/
theorem redrawLoop_some (len : ℕ) (rng : ℕ → ℕ) (bad : ℕ → Bool) :
    ∀ (fuel k v k2 : ℕ), redrawLoop len rng bad fuel k = some (v, k2) →
      bad v = false ∧ v < len
  | 0, k, v, k2, h => by
    rw [redrawLoop] at h
    rcases Nat.eq_zero_or_pos len with rfl | hpos
    · simp [gen_range] at h
    · have hv : rng k % len < len := Nat.mod_lt _ hpos
      simp only [gen_range, if_neg (Nat.pos_iff_ne_zero.mp hpos)] at h
      split at h
      · exact absurd h (by simp)
      · rename_i hb
        simp only [Option.some.injEq, Prod.mk.injEq] at h
        obtain ⟨rfl, rfl⟩ := h
        exact ⟨by simpa using hb, hv⟩
  | fuel + 1, k, v, k2, h => by
    rw [redrawLoop] at h
    rcases Nat.eq_zero_or_pos len with rfl | hpos
    · simp [gen_range] at h
    · have hv : rng k % len < len := Nat.mod_lt _ hpos
      simp only [gen_range, if_neg (Nat.pos_iff_ne_zero.mp hpos)] at h
      split at h
      · exact redrawLoop_some len rng bad fuel (k + 1) v k2 h
      · rename_i hb
        simp only [Option.some.injEq, Prod.mk.injEq] at h
        obtain ⟨rfl, rfl⟩ := h
        exact ⟨by simpa using hb, hv⟩

/-- On a buffer of fewer than 3 points the plane sampling never produces a
triple: with 0 points `gen_range` panics, and with 1 or 2 points a
rejection loop can never accept, for any fuel. -/
theorem sample_plane_indices_none (len : ℕ) (hlen : len ≤ 2) (rng : ℕ → ℕ)
    (fuel k : ℕ) : sample_plane_indices len rng fuel k = none := by
  interval_cases len
  · simp [sample_plane_indices, gen_range]
  · have h2 : redrawLoop 1 rng (fun v => v == rng k % 1) fuel (k + 1) = none := by
      apply redrawLoop_none
      intro v hv
      interval_cases v
      simp [Nat.mod_one]
    simp [sample_plane_indices, gen_range, h2]
  · have hg : gen_range 2 rng k = some (rng k % 2) := by simp [gen_range]
    have h1lt : rng k % 2 < 2 := Nat.mod_lt _ (by norm_num)
    cases hrd : redrawLoop 2 rng (fun v => v == rng k % 2) fuel (k + 1) with
    | none => simp [sample_plane_indices, hg, hrd]
    | some p =>
      obtain ⟨rand2, k2⟩ := p
      obtain ⟨hbadf, hlt2⟩ := redrawLoop_some 2 rng _ fuel (k + 1) rand2 k2 hrd
      have hne : rand2 ≠ rng k % 2 := by simpa using hbadf
      have h3 : redrawLoop 2 rng (fun v => v == rand2 || v == rng k % 2) fuel k2
          = none := by
        apply redrawLoop_none
        intro v hv
        have hcase : v = rand2 ∨ v = rng k % 2 := by omega
        rcases hcase with rfl | rfl <;> simp
      simp [sample_plane_indices, hg, hrd, h3]

/-- On a buffer of fewer than 2 points the line sampling never produces a
pair. -/
theorem sample_line_indices_none (len : ℕ) (hlen : len ≤ 1) (rng : ℕ → ℕ)
    (fuel k : ℕ) : sample_line_indices len rng fuel k = none := by
  interval_cases len
  · simp [sample_line_indices, gen_range]
  · have h2 : redrawLoop 1 rng (fun v => v == rng k % 1) fuel (k + 1) = none := by
      apply redrawLoop_none
      intro v hv
      interval_cases v
      simp [Nat.mod_one]
    simp [sample_line_indices, gen_range, h2]

/-- With a non-positive threshold every iteration ranks 0, so the
self-sampling serial plane loop never replaces its running best. -/
theorem ransac_plane_serial_go_nonpos (buffer : List Vec3) (thr : ℚ)
    (ht : thr ≤ 0) (rng : ℕ → ℕ) (fuel : ℕ) :
    ∀ (n k : ℕ) (best res : Plane × List ℕ),
      ransac_plane_serial_go buffer thr rng fuel n k best = some res → res = best
  | 0, k, best, res, h => by
    rw [ransac_plane_serial_go] at h
    simpa using h.symm
  | n + 1, k, best, res, h => by
    rw [ransac_plane_serial_go] at h
    cases hs : sample_plane_indices buffer.length rng fuel k with
    | none =>
      rw [hs] at h
      simp at h
    | some p =>
      obtain ⟨s, k2⟩ := p
      rw [hs] at h
      dsimp only at h
      have hzero : (plane_iteration buffer thr s).1.ranking = 0 :=
        plane_iteration_rank_zero buffer thr ht s
      rw [if_neg (by rw [hzero]; exact Nat.not_lt_zero _)] at h
      exact ransac_plane_serial_go_nonpos buffer thr ht rng fuel n k2 best res h

theorem ransac_line_serial_go_nonpos (buffer : List Vec3) (thr : ℚ)
    (ht : thr ≤ 0) (rng : ℕ → ℕ) (fuel : ℕ) :
    ∀ (n k : ℕ) (best res : Line × List ℕ),
      ransac_line_serial_go buffer thr rng fuel n k best = some res → res = best
  | 0, k, best, res, h => by
    rw [ransac_line_serial_go] at h
    simpa using h.symm
  | n + 1, k, best, res, h => by
    rw [ransac_line_serial_go] at h
    cases hs : sample_line_indices buffer.length rng fuel k with
    | none =>
      rw [hs] at h
      simp at h
    | some p =>
      obtain ⟨s, k2⟩ := p
      rw [hs] at h
      dsimp only at h
      have hzero : (line_iteration buffer thr s).1.ranking = 0 :=
        line_iteration_rank_zero buffer thr ht s
      rw [if_neg (by rw [hzero]; exact Nat.not_lt_zero _)] at h
      exact ransac_line_serial_go_nonpos buffer thr ht rng fuel n k2 best res h

/-- Refinement: a self-sampling serial plane run that draws successfully
computes exactly the sample-list model on the drawn samples. -/
theorem ransac_plane_serial_go_eq (buffer : List Vec3) (thr : ℚ)
    (rng : ℕ → ℕ) (fuel : ℕ) :
    ∀ (n k : ℕ) (samples : List (ℕ × ℕ × ℕ)) (best : Plane × List ℕ),
      sample_plane_list buffer.length rng fuel n k = some samples →
      ransac_plane_serial_go buffer thr rng fuel n k best
        = some (samples.foldl
            (fun b s =>
              let cur := plane_iteration buffer thr s
              if cur.1.ranking > b.1.ranking then cur else b) best)
  | 0, k, samples, best, h => by
    rw [sample_plane_list] at h
    obtain rfl : ([] : List (ℕ × ℕ × ℕ)) = samples := by simpa using h
    rfl
  | n + 1, k, samples, best, h => by
    rw [sample_plane_list] at h
    cases hs : sample_plane_indices buffer.length rng fuel k with
    | none =>
      rw [hs] at h
      simp at h
    | some p =>
      obtain ⟨s, k2⟩ := p
      rw [hs] at h
      dsimp only at h
      cases hrest : sample_plane_list buffer.length rng fuel n k2 with
      | none =>
        rw [hrest] at h
        simp at h
      | some rest =>
        rw [hrest] at h
        obtain rfl : s :: rest = samples := by simpa using h
        rw [ransac_plane_serial_go, hs, List.foldl_cons]
        exact ransac_plane_serial_go_eq buffer thr rng fuel n k2 rest _ hrest

theorem ransac_line_serial_go_eq (buffer : List Vec3) (thr : ℚ)
    (rng : ℕ → ℕ) (fuel : ℕ) :
    ∀ (n k : ℕ) (samples : List (ℕ × ℕ)) (best : Line × List ℕ),
      sample_line_list buffer.length rng fuel n k = some samples →
      ransac_line_serial_go buffer thr rng fuel n k best
        = some (samples.foldl
            (fun b s =>
              let cur := line_iteration buffer thr s
              if cur.1.ranking > b.1.ranking then cur else b) best)
  | 0, k, samples, best, h => by
    rw [sample_line_list] at h
    obtain rfl : ([] : List (ℕ × ℕ)) = samples := by simpa using h
    rfl
  | n + 1, k, samples, best, h => by
    rw [sample_line_list] at h
    cases hs : sample_line_indices buffer.length rng fuel k with
    | none =>
      rw [hs] at h
      simp at h
    | some p =>
      obtain ⟨s, k2⟩ := p
      rw [hs] at h
      dsimp only at h
      cases hrest : sample_line_list buffer.length rng fuel n k2 with
      | none =>
        rw [hrest] at h
        simp at h
      | some rest =>
        rw [hrest] at h
        obtain rfl : s :: rest = samples := by simpa using h
        rw [ransac_line_serial_go, hs, List.foldl_cons]
        exact ransac_line_serial_go_eq buffer thr rng fuel n k2 rest _ hrest

/-- A successful self-sampling serial plane run returns exactly what the
sample-injected `ransac_plane_serial` returns on the drawn samples, so the
two models agree on every execution that completes. -/
theorem ransac_plane_serial_rng_refines (buffer : List Vec3) (thr : ℚ)
    (iters : ℕ) (rng : ℕ → ℕ) (fuel : ℕ) (samples : List (ℕ × ℕ × ℕ))
    (h : sample_plane_list buffer.length rng fuel iters 0 = some samples) :
    ransac_plane_serial_rng buffer thr iters rng fuel
      = some (ransac_plane_serial buffer thr samples) :=
  ransac_plane_serial_go_eq buffer thr rng fuel iters 0 samples (zeroPlane, []) h

theorem ransac_line_serial_rng_refines (buffer : List Vec3) (thr : ℚ)
    (iters : ℕ) (rng : ℕ → ℕ) (fuel : ℕ) (samples : List (ℕ × ℕ))
    (h : sample_line_list buffer.length rng fuel iters 0 = some samples) :
    ransac_line_serial_rng buffer thr iters rng fuel
      = some (ransac_line_serial buffer thr samples) :=
  ransac_line_serial_go_eq buffer thr rng fuel iters 0 samples (zeroLine, []) h

/-! ## Claim theorems -/

/-- C3: a plane hypothesis built from a sample triple with zero
cross-product normal has all four coefficients zero; against it (and
against a line hypothesis from two coincident positions) every point's
computed distance is `nan`, the strict below-threshold comparison fails for
every point and every positive threshold, and the scoring loop therefore
returns ranking 0 with an empty inlier list — purely by the comparison
semantics, the scoring loop having no special-case rejection branch. -/
theorem claim3_degenerate_hypotheses (pa pb pc : Vec3)
    (hdeg : cross (vsub pb pa) (vsub pc pa) = ⟨0, 0, 0⟩)
    (thr : ℚ) (_hthr : 0 < thr) :
    plane_from_sample pa pb pc = zeroPlane ∧
    (∀ p : Vec3, distance_point_plane p (plane_from_sample pa pb pc) = F.nan ∧
      flt (distance_point_plane p (plane_from_sample pa pb pc)) thr = false) ∧
    (∀ buffer : List Vec3,
      scorePlane buffer thr (plane_from_sample pa pb pc) = (zeroPlane, [])) ∧
    (∀ q0 p : Vec3, distance_point_line p (line_from_sample q0 q0) = F.nan ∧
      flt (distance_point_line p (line_from_sample q0 q0)) thr = false) ∧
    (∀ (q0 : Vec3) (buffer : List Vec3),
      scoreLine buffer thr (line_from_sample q0 q0) = (line_from_sample q0 q0, [])) := by
  have hplane : plane_from_sample pa pb pc = zeroPlane := by
    simp only [plane_from_sample, hdeg]
    simp [dot, zeroPlane]
  refine ⟨hplane, ?_, ?_, ?_, ?_⟩
  · intro p
    rw [hplane]
    exact ⟨distance_zeroPlane_nan p, by rw [distance_zeroPlane_nan p, flt_nan]⟩
  · intro buffer
    rw [hplane, scorePlane_eq, countP_zeroPlane]
    have hfil : List.filter (fun ip => flt (distance_point_plane ip.2 zeroPlane) thr)
        buffer.enum = [] := by
      rw [List.filter_eq_nil_iff]
      intro ip _
      rw [distance_zeroPlane_nan ip.2, flt_nan]
      exact Bool.false_ne_true
    rw [hfil]
    simp [zeroPlane]
  · intro q0 p
    exact ⟨distance_coincident_line_nan q0 p, by
      rw [distance_coincident_line_nan q0 p, flt_nan]⟩
  · intro q0 buffer
    rw [scoreLine_eq]
    have hcnt : buffer.countP
        (fun p => flt (distance_point_line p (line_from_sample q0 q0)) thr) = 0 := by
      rw [List.countP_eq_zero]
      intro p _
      rw [distance_coincident_line_nan q0 p, flt_nan]
      exact Bool.false_ne_true
    have hfil : List.filter
        (fun ip => flt (distance_point_line ip.2 (line_from_sample q0 q0)) thr)
        buffer.enum = [] := by
      rw [List.filter_eq_nil_iff]
      intro ip _
      rw [distance_coincident_line_nan q0 ip.2, flt_nan]
      exact Bool.false_ne_true
    rw [hcnt, hfil]
    simp

/-- C4 counterexample: at threshold -1, zero iterations and a one-point
buffer — all three conditions the claim says must fail fast with
`InvalidInput` — both serial fitters return an ordinary `(model, inliers)`
pair (there is no error channel at all in the code), and the parallel
paths hit the `unwrap` panic rather than any validation error. -/
theorem claim4_counterexample :
    ransac_plane [⟨0, 0, 0⟩] (-1) [] false = some (zeroPlane, []) ∧
    ransac_line [⟨0, 0, 0⟩] (-1) [] false = some (zeroLine, []) ∧
    ransac_plane [⟨0, 0, 0⟩] (-1) [] true = none ∧
    ransac_line [⟨0, 0, 0⟩] (-1) [] true = none :=
  ⟨rfl, rfl, rfl, rfl⟩

/-- C4 amended: no fail-fast `InvalidInput` validation exists and there is
no error channel.  With zero iterations the serial fitters return the
initial zero model as an ordinary pair whatever the threshold and buffer
(all three supposedly invalid conditions included); whenever a serial run
with a non-positive threshold does return, its result is that same zero
model with an empty inlier list; and on a buffer below the minimum sample
size with at least one iteration the serial fitters never return at all —
`gen_range` panics on an empty buffer, and the distinct-index rejection
loops never exit, for any fuel bound, on a 1- or 2-point buffer (plane),
respectively a 1-point buffer (line) — rather than reporting any
`InvalidInput`. -/
theorem claim4_amended :
    (∀ (buffer : List Vec3) (thr : ℚ) (rng : ℕ → ℕ) (fuel : ℕ),
      ransac_plane_serial_rng buffer thr 0 rng fuel = some (zeroPlane, [])) ∧
    (∀ (buffer : List Vec3) (thr : ℚ) (rng : ℕ → ℕ) (fuel : ℕ),
      ransac_line_serial_rng buffer thr 0 rng fuel = some (zeroLine, [])) ∧
    (∀ (buffer : List Vec3) (thr : ℚ), thr ≤ 0 →
      ∀ (iters : ℕ) (rng : ℕ → ℕ) (fuel : ℕ) (res : Plane × List ℕ),
        ransac_plane_serial_rng buffer thr iters rng fuel = some res →
        res = (zeroPlane, [])) ∧
    (∀ (buffer : List Vec3) (thr : ℚ), thr ≤ 0 →
      ∀ (iters : ℕ) (rng : ℕ → ℕ) (fuel : ℕ) (res : Line × List ℕ),
        ransac_line_serial_rng buffer thr iters rng fuel = some res →
        res = (zeroLine, [])) ∧
    (∀ (buffer : List Vec3) (thr : ℚ), buffer.length ≤ 2 →
      ∀ (iters : ℕ) (rng : ℕ → ℕ) (fuel : ℕ),
        ransac_plane_serial_rng buffer thr (iters + 1) rng fuel = none) ∧
    (∀ (buffer : List Vec3) (thr : ℚ), buffer.length ≤ 1 →
      ∀ (iters : ℕ) (rng : ℕ → ℕ) (fuel : ℕ),
        ransac_line_serial_rng buffer thr (iters + 1) rng fuel = none) := by
  refine ⟨fun _ _ _ _ => rfl, fun _ _ _ _ => rfl, ?_, ?_, ?_, ?_⟩
  · intro buffer thr ht iters rng fuel res h
    exact ransac_plane_serial_go_nonpos buffer thr ht rng fuel iters 0
      (zeroPlane, []) res h
  · intro buffer thr ht iters rng fuel res h
    exact ransac_line_serial_go_nonpos buffer thr ht rng fuel iters 0
      (zeroLine, []) res h
  · intro buffer thr hlen iters rng fuel
    rw [ransac_plane_serial_rng, ransac_plane_serial_go,
      sample_plane_indices_none buffer.length hlen rng fuel 0]
  · intro buffer thr hlen iters rng fuel
    rw [ransac_line_serial_rng, ransac_line_serial_go,
      sample_line_indices_none buffer.length hlen rng fuel 0]

/-- C5: cluster extraction emits exactly one cluster per indexed point —
the cluster list has the same length as the tree, and the i-th cluster is
the one grown from the i-th point as seed, in source iteration order. -/
theorem claim5_one_cluster_per_point (tree : List Item) :
    (extract_clusters_euclidean tree).length = tree.length ∧
    ∀ i : ℕ, i < tree.length →
      (extract_clusters_euclidean tree).getD i []
        = seedCluster tree 15 (tree.getD i ⟨0, 0, 0⟩) := by
  rw [extract_clusters_eq_map]
  refine ⟨by simp, ?_⟩
  intro i hi
  rw [List.getD_eq_getElem _ _ (by simpa using hi), List.getD_eq_getElem _ _ hi,
    List.getElem_map]

/-- C7: for every tree, radius and seed from the tree, the per-seed
expansion loop terminates within fuel `tree.length + 2`: it reaches a
state where the while condition is false, with a duplicate-free queue no
longer than the tree. -/
theorem claim7_loop_terminates (tree : List Item) (r : ℚ) (seed : Item)
    (hseed : seed ∈ tree) :
    ∃ s', clusterLoop tree r (tree.length + 2) ⟨[seed], [], 0⟩ = some s' ∧
      ¬(s'.processed.length < tree.length ∧ s'.counter < s'.q.length) ∧
      s'.q.Nodup ∧ s'.q.length ≤ tree.length := by
  rcases clusterLoop_init_isSome tree r seed with ⟨s', hs⟩
  have hnd : s'.q.Nodup :=
    clusterLoop_nodup tree r (tree.length + 2) ⟨[seed], [], 0⟩ s' hs (by simp)
  have hsub : ∀ x ∈ s'.q, x ∈ tree := by
    refine clusterLoop_pred tree r (fun x => x ∈ tree)
      (fun c x _ hx _ => hx) (tree.length + 2) ⟨[seed], [], 0⟩ s' hs ?_
    intro x hx
    rcases List.mem_singleton.mp hx with rfl
    exact hseed
  exact ⟨s', hs, clusterLoop_exit tree r (tree.length + 2) ⟨[seed], [], 0⟩ s' hs,
    hnd, (List.subperm_of_subset hnd fun x hx => hsub x hx).length_le⟩

/-- C9: every emitted cluster is nonempty, starts with its seed (the i-th
tree point), and has pairwise distinct members under coordinate
equality. -/
theorem claim9_cluster_shape (tree : List Item) (i : ℕ) (hi : i < tree.length) :
    (extract_clusters_euclidean tree).getD i [] ≠ [] ∧
    ((extract_clusters_euclidean tree).getD i []).head?
      = some (tree.getD i ⟨0, 0, 0⟩) ∧
    ((extract_clusters_euclidean tree).getD i []).Nodup := by
  have hmap : (extract_clusters_euclidean tree).getD i []
      = seedCluster tree 15 (tree.getD i ⟨0, 0, 0⟩) := by
    rw [extract_clusters_eq_map,
      List.getD_eq_getElem _ _ (by simpa using hi), List.getD_eq_getElem _ _ hi,
      List.getElem_map]
  rw [hmap]
  exact seedCluster_shape tree 15 (tree.getD i ⟨0, 0, 0⟩)

/-- C10: with zero iterations the parallel paths reduce an empty sequence
with `max_by` and panic on `unwrap` (modelled as `none`), while the serial
paths return the initial zero model — all plane coefficients 0,
respectively both line points at the origin — with ranking 0 and an empty
inlier list. -/
theorem claim10_zero_iterations (buffer : List Vec3) (thr : ℚ) :
    ransac_plane buffer thr [] true = none ∧
    ransac_line buffer thr [] true = none ∧
    ransac_plane buffer thr [] false = some (⟨0, 0, 0, 0, 0⟩, []) ∧
    ransac_line buffer thr [] false = some (⟨⟨0, 0, 0⟩, ⟨0, 0, 0⟩, 0⟩, []) :=
  ⟨rfl, rfl, rfl, rfl⟩

/-- C1: every pair returned by the plane or line fitter, serial or
parallel, has its model ranking equal to the length of its inlier index
list, and both equal the recomputed count of buffer points whose distance
to the returned model is strictly below the threshold. -/
theorem claim1_ranking_is_inlier_count (buffer : List Vec3) (thr : ℚ) :
    (∀ samples : List (ℕ × ℕ × ℕ),
      (ransac_plane_serial buffer thr samples).1.ranking
          = (ransac_plane_serial buffer thr samples).2.length ∧
      (ransac_plane_serial buffer thr samples).2.length
          = buffer.countP (fun p =>
              flt (distance_point_plane p (ransac_plane_serial buffer thr samples).1) thr)) ∧
    (∀ (samples : List (ℕ × ℕ × ℕ)) (res : Plane × List ℕ),
      ransac_plane_par buffer thr samples = some res →
      res.1.ranking = res.2.length ∧
      res.2.length
        = buffer.countP (fun p => flt (distance_point_plane p res.1) thr)) ∧
    (∀ samples : List (ℕ × ℕ),
      (ransac_line_serial buffer thr samples).1.ranking
          = (ransac_line_serial buffer thr samples).2.length ∧
      (ransac_line_serial buffer thr samples).2.length
          = buffer.countP (fun p =>
              flt (distance_point_line p (ransac_line_serial buffer thr samples).1) thr)) ∧
    (∀ (samples : List (ℕ × ℕ)) (res : Line × List ℕ),
      ransac_line_par buffer thr samples = some res →
      res.1.ranking = res.2.length ∧
      res.2.length
        = buffer.countP (fun p => flt (distance_point_line p res.1) thr)) := by
  refine ⟨?_, ?_, ?_, ?_⟩
  · intro samples
    rcases ransac_plane_serial_cases buffer thr samples with h | h
    · rw [h]
      exact ⟨rfl, (countP_zeroPlane buffer thr).symm⟩
    · rcases List.mem_map.mp h with ⟨s, -, heq⟩
      rw [← heq]
      exact plane_iteration_count buffer thr s
  · intro samples res hres
    rw [ransac_plane_par] at hres
    rcases List.mem_map.mp (maxByLast_mem _ _ res hres) with ⟨s, -, heq⟩
    rw [← heq]
    exact plane_iteration_count buffer thr s
  · intro samples
    rcases ransac_line_serial_cases buffer thr samples with h | h
    · rw [h]
      exact ⟨rfl, (countP_zeroLine buffer thr).symm⟩
    · rcases List.mem_map.mp h with ⟨s, -, heq⟩
      rw [← heq]
      exact line_iteration_count buffer thr s
  · intro samples res hres
    rw [ransac_line_par] at hres
    rcases List.mem_map.mp (maxByLast_mem _ _ res hres) with ⟨s, -, heq⟩
    rw [← heq]
    exact line_iteration_count buffer thr s

/-- C2 amended: the serial paths satisfy the first-maximum selection
(either all iterations rank 0 — or there are none — and the initial zero
model with empty inliers is returned, or the result is the earliest
iteration of maximum ranking, that maximum being positive); the parallel
paths return the LATEST iteration of maximum ranking, because Rust's
`max_by` keeps the last of equally ranked elements. -/
theorem claim2_amended_selection (buffer : List Vec3) (thr : ℚ) :
    (∀ samples : List (ℕ × ℕ × ℕ),
      FirstMaxSpec (fun pr : Plane × List ℕ => pr.1.ranking) (zeroPlane, [])
        (samples.map (plane_iteration buffer thr))
        (ransac_plane_serial buffer thr samples)) ∧
    (∀ (samples : List (ℕ × ℕ × ℕ)) (res : Plane × List ℕ),
      ransac_plane_par buffer thr samples = some res →
      LastMaxSpec (fun pr : Plane × List ℕ => pr.1.ranking)
        (samples.map (plane_iteration buffer thr)) res) ∧
    (∀ samples : List (ℕ × ℕ),
      FirstMaxSpec (fun pr : Line × List ℕ => pr.1.ranking) (zeroLine, [])
        (samples.map (line_iteration buffer thr))
        (ransac_line_serial buffer thr samples)) ∧
    (∀ (samples : List (ℕ × ℕ)) (res : Line × List ℕ),
      ransac_line_par buffer thr samples = some res →
      LastMaxSpec (fun pr : Line × List ℕ => pr.1.ranking)
        (samples.map (line_iteration buffer thr)) res) := by
  refine ⟨?_, ?_, ?_, ?_⟩
  · intro samples
    rw [ransac_plane_serial_eq]
    exact selectBest_spec _ _ _
  · intro samples res hres
    rw [ransac_plane_par] at hres
    exact maxByLast_spec _ _ res hres
  · intro samples
    rw [ransac_line_serial_eq]
    exact selectBest_spec _ _ _
  · intro samples res hres
    rw [ransac_line_par] at hres
    exact maxByLast_spec _ _ res hres

/-- C8: the returned inlier index list is strictly increasing (hence
duplicate free) and every index is below the buffer length, for all four
execution paths. -/
theorem claim8_indices_sorted_bounded (buffer : List Vec3) (thr : ℚ) :
    (∀ samples : List (ℕ × ℕ × ℕ),
      List.Pairwise (· < ·) (ransac_plane_serial buffer thr samples).2 ∧
      ∀ i ∈ (ransac_plane_serial buffer thr samples).2, i < buffer.length) ∧
    (∀ (samples : List (ℕ × ℕ × ℕ)) (res : Plane × List ℕ),
      ransac_plane_par buffer thr samples = some res →
      List.Pairwise (· < ·) res.2 ∧ ∀ i ∈ res.2, i < buffer.length) ∧
    (∀ samples : List (ℕ × ℕ),
      List.Pairwise (· < ·) (ransac_line_serial buffer thr samples).2 ∧
      ∀ i ∈ (ransac_line_serial buffer thr samples).2, i < buffer.length) ∧
    (∀ (samples : List (ℕ × ℕ)) (res : Line × List ℕ),
      ransac_line_par buffer thr samples = some res →
      List.Pairwise (· < ·) res.2 ∧ ∀ i ∈ res.2, i < buffer.length) := by
  refine ⟨?_, ?_, ?_, ?_⟩
  · intro samples
    rcases ransac_plane_serial_cases buffer thr samples with h | h
    · rw [h]
      exact ⟨List.Pairwise.nil, by simp⟩
    · rcases List.mem_map.mp h with ⟨s, -, heq⟩
      rw [← heq]
      exact plane_iteration_indices buffer thr s
  · intro samples res hres
    rw [ransac_plane_par] at hres
    rcases List.mem_map.mp (maxByLast_mem _ _ res hres) with ⟨s, -, heq⟩
    rw [← heq]
    exact plane_iteration_indices buffer thr s
  · intro samples
    rcases ransac_line_serial_cases buffer thr samples with h | h
    · rw [h]
      exact ⟨List.Pairwise.nil, by simp⟩
    · rcases List.mem_map.mp h with ⟨s, -, heq⟩
      rw [← heq]
      exact line_iteration_indices buffer thr s
  · intro samples res hres
    rw [ransac_line_par] at hres
    rcases List.mem_map.mp (maxByLast_mem _ _ res hres) with ⟨s, -, heq⟩
    rw [← heq]
    exact line_iteration_indices buffer thr s

/-- C6 amended: with the radius fixed at the hardcoded `15.0` (the
function takes no radius parameter), two groups with intra-group squared
distances below `15²` and inter-group squared distances above `15²` are
never mixed: a cluster seeded in group A contains only group-A tree
members, and symmetrically for group B. -/
theorem claim6_amended_radius15_separation (tree : List Item) (P : Item → Prop)
    (_hintraA : ∀ x ∈ tree, ∀ y ∈ tree, P x → P y → distSq x y < 15 * 15)
    (_hintraB : ∀ x ∈ tree, ∀ y ∈ tree, ¬P x → ¬P y → distSq x y < 15 * 15)
    (hinter : ∀ x ∈ tree, ∀ y ∈ tree, P x → ¬P y → 15 * 15 < distSq x y) :
    ∀ seed ∈ tree,
      (P seed → ∀ x ∈ seedCluster tree 15 seed, x ∈ tree ∧ P x) ∧
      (¬P seed → ∀ x ∈ seedCluster tree 15 seed, x ∈ tree ∧ ¬P x) := by
  intro seed hseedmem
  constructor
  · intro hP
    refine seedCluster_pred tree 15 seed (fun x => x ∈ tree ∧ P x) ?_ ⟨hseedmem, hP⟩
    rintro center x ⟨hct, hcp⟩ hxt hxd
    refine ⟨hxt, ?_⟩
    by_contra hnp
    have hlt : 15 * 15 < distSq x center := by
      rw [distSq_comm x center]
      exact hinter center hct x hxt hcp hnp
    exact absurd hxd (not_le.mpr hlt)
  · intro hNP
    refine seedCluster_pred tree 15 seed (fun x => x ∈ tree ∧ ¬P x) ?_ ⟨hseedmem, hNP⟩
    rintro center x ⟨hct, hcnp⟩ hxt hxd
    refine ⟨hxt, ?_⟩
    intro hpx
    exact absurd hxd (not_le.mpr (hinter x hxt center hct hpx hcnp))

/-! ## Concrete fixtures, counterexamples and witnesses -/

/-- A small concrete buffer: three points of the plane `z = 0` plus one
point off it. -/
def bufW : List Vec3 := [⟨0, 0, 0⟩, ⟨1, 0, 0⟩, ⟨0, 1, 0⟩, ⟨0, 0, 1⟩]

/-- A two-item tree whose points are 30 apart (farther than the hardcoded
radius 15). -/
def treeW : List Item := [⟨0, 0, 0⟩, ⟨30, 0, 0⟩]

/-- C2 counterexample: two iterations produce distinct hypotheses with the
same (maximum) ranking 0, and the parallel path returns the hypothesis of
the LATER iteration, not the earliest: Rust's `max_by` keeps the last of
equally ranked elements. -/
theorem claim2_counterexample :
    plane_iteration bufW 0 (0, 1, 2) = (⟨0, 0, 1, 0, 0⟩, []) ∧
    plane_iteration bufW 0 (0, 1, 3) = (⟨0, -1, 0, 0, 0⟩, []) ∧
    (⟨0, 0, 1, 0, 0⟩ : Plane) ≠ (⟨0, -1, 0, 0, 0⟩ : Plane) ∧
    ransac_plane_par bufW 0 [(0, 1, 2), (0, 1, 3)] = some (⟨0, -1, 0, 0, 0⟩, []) := by
  refine ⟨?_, ?_, ?_, ?_⟩
  · norm_num [plane_iteration, plane_from_sample, positionAt, bufW, vsub, cross, dot,
      scorePlane, List.enum, List.enumFrom, distance_point_plane, fdivQ, flt,
      ratSqrt_one, ratSqrt_zero]
  · norm_num [plane_iteration, plane_from_sample, positionAt, bufW, vsub, cross, dot,
      scorePlane, List.enum, List.enumFrom, distance_point_plane, fdivQ, flt,
      ratSqrt_one, ratSqrt_zero]
  · intro h
    have := congrArg Plane.b h
    norm_num at this
  · norm_num [ransac_plane_par, plane_iteration, plane_from_sample, positionAt, bufW,
      vsub, cross, dot, scorePlane, List.enum, List.enumFrom, distance_point_plane,
      fdivQ, flt, ratSqrt_one, ratSqrt_zero, maxByLast]

/-- C6 counterexample: for caller radius 1 the two singleton groups
`{(0,0,0)}` and `{(5,0,0)}` satisfy the claim's separation hypotheses
(inter-group squared distance 25 > 1), yet the cluster seeded at
`(0,0,0)` contains the other group's point: the extraction has no radius
parameter and always uses the hardcoded `15.0`. -/
theorem claim6_counterexample :
    (1 : ℚ) * 1 < distSq ⟨0, 0, 0⟩ ⟨5, 0, 0⟩ ∧
    (extract_clusters_euclidean [⟨0, 0, 0⟩, ⟨5, 0, 0⟩]).getD 0 []
      = [⟨0, 0, 0⟩, ⟨5, 0, 0⟩] := by
  constructor
  · norm_num [distSq]
  · have hstep : clusterStep [⟨0, 0, 0⟩, ⟨5, 0, 0⟩] 15 ⟨[⟨0, 0, 0⟩], [], 0⟩
        = ⟨[⟨0, 0, 0⟩, ⟨5, 0, 0⟩], [⟨0, 0, 0⟩, ⟨5, 0, 0⟩], 1⟩ := by
      norm_num [clusterStep, within_radius, distSq, visitNeighbor]
    have hloop : clusterLoop [⟨0, 0, 0⟩, ⟨5, 0, 0⟩] 15 4 ⟨[⟨0, 0, 0⟩], [], 0⟩
        = some ⟨[⟨0, 0, 0⟩, ⟨5, 0, 0⟩], [⟨0, 0, 0⟩, ⟨5, 0, 0⟩], 1⟩ := by
      rw [show (4 : ℕ) = 3 + 1 from rfl, clusterLoop, if_pos (by norm_num), hstep,
        show (3 : ℕ) = 2 + 1 from rfl, clusterLoop, if_neg (by norm_num)]
    have hsc : seedCluster [⟨0, 0, 0⟩, ⟨5, 0, 0⟩] 15 ⟨0, 0, 0⟩
        = [⟨0, 0, 0⟩, ⟨5, 0, 0⟩] := by
      show (match clusterLoop [⟨0, 0, 0⟩, ⟨5, 0, 0⟩] 15 4 ⟨[⟨0, 0, 0⟩], [], 0⟩ with
        | some s => s.q
        | none => [⟨0, 0, 0⟩]) = _
      rw [hloop]
    rw [extract_clusters_eq_map, List.getD_eq_getElem _ _ (by norm_num),
      List.getElem_map]
    simpa using hsc

/-- C1 witness: one parallel plane run on the concrete buffer returns the
plane `z = 0` with ranking 3 and inliers `[0, 1, 2]`, and ranking, list
length and recomputed inlier count agree. -/
theorem claim1_witness :
    (⟨0, 0, 1, 0, 3⟩ : Plane).ranking = ([0, 1, 2] : List ℕ).length ∧
    ([0, 1, 2] : List ℕ).length
      = bufW.countP (fun p => flt (distance_point_plane p ⟨0, 0, 1, 0, 3⟩) 1) :=
  (claim1_ranking_is_inlier_count bufW 1).2.1 [(0, 1, 2)] (⟨0, 0, 1, 0, 3⟩, [0, 1, 2])
    (by norm_num [ransac_plane_par, plane_iteration, plane_from_sample, positionAt,
      bufW, vsub, cross, dot, scorePlane, List.enum, List.enumFrom,
      distance_point_plane, fdivQ, flt, ratSqrt_one, ratSqrt_zero, maxByLast])

/-- C2 witness: the same concrete parallel run satisfies the latest-maximum
selection specification. -/
theorem claim2_witness :
    LastMaxSpec (fun pr : Plane × List ℕ => pr.1.ranking)
      (List.map (plane_iteration bufW 1) [(0, 1, 2)]) (⟨0, 0, 1, 0, 3⟩, [0, 1, 2]) :=
  (claim2_amended_selection bufW 1).2.1 [(0, 1, 2)] (⟨0, 0, 1, 0, 3⟩, [0, 1, 2])
    (by norm_num [ransac_plane_par, plane_iteration, plane_from_sample, positionAt,
      bufW, vsub, cross, dot, scorePlane, List.enum, List.enumFrom,
      distance_point_plane, fdivQ, flt, ratSqrt_one, ratSqrt_zero, maxByLast])

/-- C3 witness: the collinear triple (0,0,0), (1,0,0), (2,0,0) with
threshold 1 yields the all-zero plane, `nan` distances, and an empty
scoring result; likewise the coincident pair (7,7,7), (7,7,7). -/
theorem claim3_witness :
    plane_from_sample ⟨0, 0, 0⟩ ⟨1, 0, 0⟩ ⟨2, 0, 0⟩ = zeroPlane ∧
    distance_point_plane ⟨3, 4, 5⟩ (plane_from_sample ⟨0, 0, 0⟩ ⟨1, 0, 0⟩ ⟨2, 0, 0⟩)
      = F.nan ∧
    scorePlane [⟨3, 4, 5⟩] 1 (plane_from_sample ⟨0, 0, 0⟩ ⟨1, 0, 0⟩ ⟨2, 0, 0⟩)
      = (zeroPlane, []) ∧
    distance_point_line ⟨3, 4, 5⟩ (line_from_sample ⟨7, 7, 7⟩ ⟨7, 7, 7⟩) = F.nan := by
  obtain ⟨h1, h2, h3, h4, -⟩ := claim3_degenerate_hypotheses ⟨0, 0, 0⟩ ⟨1, 0, 0⟩
    ⟨2, 0, 0⟩ (by norm_num [cross, vsub]) 1 (by norm_num)
  exact ⟨h1, (h2 ⟨3, 4, 5⟩).1, h3 [⟨3, 4, 5⟩], (h4 ⟨7, 7, 7⟩ ⟨3, 4, 5⟩).1⟩

/-- C4 witness (amended claim): on a one-point buffer with a negative
threshold, zero iterations return the zero model as an ordinary pair,
while a single iteration never returns (the rejection loop cannot pick a
second distinct index). -/
theorem claim4_witness :
    ransac_plane_serial_rng [⟨0, 0, 0⟩] (-1) 0 (fun k => k) 5
      = some (zeroPlane, []) ∧
    ransac_plane_serial_rng [⟨0, 0, 0⟩] (-1) 1 (fun k => k) 5 = none := by
  constructor
  · exact claim4_amended.1 [⟨0, 0, 0⟩] (-1) (fun k => k) 5
  · exact claim4_amended.2.2.2.2.1 [⟨0, 0, 0⟩] (-1) (by norm_num) 0 (fun k => k) 5

/-- C5 witness: on a one-point tree there is exactly one cluster, grown
from that point. -/
theorem claim5_witness :
    (extract_clusters_euclidean [⟨0, 0, 0⟩]).length = ([⟨0, 0, 0⟩] : List Item).length ∧
    (extract_clusters_euclidean [⟨0, 0, 0⟩]).getD 0 []
      = seedCluster [⟨0, 0, 0⟩] 15 (([⟨0, 0, 0⟩] : List Item).getD 0 ⟨0, 0, 0⟩) :=
  ⟨(claim5_one_cluster_per_point [⟨0, 0, 0⟩]).1,
    (claim5_one_cluster_per_point [⟨0, 0, 0⟩]).2 0 (by norm_num)⟩

/-- C6 witness (amended claim): on the two-group tree `treeW` the point
seeding the first group's cluster is itself a group member. -/
theorem claim6_witness :
    (⟨0, 0, 0⟩ : Item) ∈ treeW ∧ (⟨0, 0, 0⟩ : Item).x ≤ 0 := by
  have h1 : ∀ x ∈ treeW, ∀ y ∈ treeW, x.x ≤ 0 → y.x ≤ 0 → distSq x y < 15 * 15 := by
    intro x hx y hy hpx hpy
    simp only [treeW, List.mem_cons, List.mem_singleton, List.not_mem_nil,
      or_false] at hx hy
    rcases hx with rfl | rfl
    · rcases hy with rfl | rfl
      · norm_num [distSq]
      · exact absurd hpy (by norm_num)
    · exact absurd hpx (by norm_num)
  have h2 : ∀ x ∈ treeW, ∀ y ∈ treeW, ¬x.x ≤ 0 → ¬y.x ≤ 0 → distSq x y < 15 * 15 := by
    intro x hx y hy hpx hpy
    simp only [treeW, List.mem_cons, List.mem_singleton, List.not_mem_nil,
      or_false] at hx hy
    rcases hx with rfl | rfl
    · exact absurd (by norm_num) hpx
    · rcases hy with rfl | rfl
      · exact absurd (by norm_num) hpy
      · norm_num [distSq]
  have h3 : ∀ x ∈ treeW, ∀ y ∈ treeW, x.x ≤ 0 → ¬y.x ≤ 0 → 15 * 15 < distSq x y := by
    intro x hx y hy hpx hpy
    simp only [treeW, List.mem_cons, List.mem_singleton, List.not_mem_nil,
      or_false] at hx hy
    rcases hx with rfl | rfl
    · rcases hy with rfl | rfl
      · exact absurd (by norm_num) hpy
      · norm_num [distSq]
    · exact absurd hpx (by norm_num)
  have hseed : (⟨0, 0, 0⟩ : Item) ∈ treeW := by simp [treeW]
  have hmem : (⟨0, 0, 0⟩ : Item) ∈ seedCluster treeW 15 ⟨0, 0, 0⟩ :=
    List.mem_of_mem_head? ((seedCluster_shape treeW 15 ⟨0, 0, 0⟩).2.1)
  exact (claim6_amended_radius15_separation treeW (fun it => it.x ≤ 0) h1 h2 h3
    ⟨0, 0, 0⟩ hseed).1 (by norm_num) ⟨0, 0, 0⟩ hmem

/-- C7 witness: the loop terminates on a concrete one-point tree. -/
theorem claim7_witness :
    (clusterLoop [⟨1, 1, 1⟩] 15 (([⟨1, 1, 1⟩] : List Item).length + 2)
      ⟨[⟨1, 1, 1⟩], [], 0⟩).isSome = true := by
  rcases claim7_loop_terminates [⟨1, 1, 1⟩] 15 ⟨1, 1, 1⟩ (by simp)
    with ⟨s', hs, -, -, -⟩
  rw [hs]
  rfl

/-- C8 witness: the inlier list of the concrete parallel plane run is
strictly increasing. -/
theorem claim8_witness : List.Pairwise (· < ·) ([0, 1, 2] : List ℕ) :=
  ((claim8_indices_sorted_bounded bufW 1).2.1 [(0, 1, 2)] (⟨0, 0, 1, 0, 3⟩, [0, 1, 2])
    (by norm_num [ransac_plane_par, plane_iteration, plane_from_sample, positionAt,
      bufW, vsub, cross, dot, scorePlane, List.enum, List.enumFrom,
      distance_point_plane, fdivQ, flt, ratSqrt_one, ratSqrt_zero, maxByLast])).1

/-- C9 witness: the cluster of a concrete one-point tree starts with its
seed and is duplicate free. -/
theorem claim9_witness :
    ((extract_clusters_euclidean [⟨2, 3, 4⟩]).getD 0 []).head?
      = some (([⟨2, 3, 4⟩] : List Item).getD 0 ⟨0, 0, 0⟩) ∧
    ((extract_clusters_euclidean [⟨2, 3, 4⟩]).getD 0 []).Nodup := by
  rcases claim9_cluster_shape [⟨2, 3, 4⟩] 0 (by norm_num) with ⟨-, h2, h3⟩
  exact ⟨h2, h3⟩
